import Mathlib

/-!
Shallow embedding of the NBA regular-season trip planner core
(`src/utils/graph_builder.py` and `src/nba_trip_planner.py`).

Modelling conventions:
* `GameNode` mirrors the Python class; Python `__eq__`/`__hash__` compare only
  `(team, date, opponent, venue)`, so every place the source compares nodes
  (graph node set, edge keys, `from_node == to_node`) uses `nodeEq`, the
  key-projection equality.  `city_group` is carried but outside the key.
* Dates are modelled as `Int` day numbers; `date2 - date1 == timedelta(days=1)`
  becomes `d2 - d1 = 1`.
* The graph is a networkx `DiGraph`: a node list in insertion order (adding an
  existing node is a no-op) and an edge list in insertion order keyed by the
  endpoint pair, where re-adding an existing edge overwrites its `direction`
  attribute in place (this is exactly `DiGraph.add_edge` semantics and is
  load-bearing for the co-located NYC pairs).
* `direction` values are the Python strings `"northbound"` / `"southbound"`.
* The recursive DFS is written with a fuel argument; recursion in the source
  only happens while `len(current_path) < 5` and each level grows the path by
  one node, so fuel `5` at the top call can never be exhausted before the
  source's own guard stops the recursion.
* Python's `dict[key]` lookup in `calculate_travel_efficiency` can raise
  `KeyError`; it is modelled with `Option`, and `rank_trips` propagates the
  possible failure (`none` = the run raises).
-/

structure GameNode where
  team : String
  date : Int
  opponent : String
  venue : String
  city_group : Option String
deriving DecidableEq, Repr

/-- Python `GameNode.__eq__`: equality on `(team, date, opponent, venue)` only. -/
def nodeKey (n : GameNode) : String × Int × String × String :=
  (n.team, n.date, n.opponent, n.venue)

/-- Node comparison as Python performs it (`__eq__` / dict key identity). -/
def nodeEq (a b : GameNode) : Bool :=
  decide (nodeKey a = nodeKey b)

/-- A cleaned schedule row (`cleaned_df` columns used by `build_game_graph`). -/
structure Row where
  home : String
  gameDate : Int
  visitor : String
  arena : String
  cityGroup : Option String
deriving DecidableEq, Repr

/-- Node construction inside `build_game_graph`'s row loop. -/
def rowToNode (r : Row) : GameNode :=
  { team := r.home, date := r.gameDate, opponent := r.visitor,
    venue := r.arena, city_group := r.cityGroup }

/-- The `NORTHBOUND` adjacency table from `graph_builder.py`. -/
def NORTHBOUND : List (String × List String) :=
  [("Wizards", ["76ers", "Knicks", "Nets", "Celtics"]),
   ("76ers", ["Knicks", "Nets", "Celtics"]),
   ("Knicks", ["Celtics"]), ("Nets", ["Celtics"])]

/-- The `SOUTHBOUND` adjacency table from `graph_builder.py`. -/
def SOUTHBOUND : List (String × List String) :=
  [("Celtics", ["Knicks", "Nets", "76ers", "Wizards"]),
   ("Knicks", ["76ers", "Wizards"]), ("Nets", ["76ers", "Wizards"]),
   ("76ers", ["Wizards"])]

/-- Python `dict.get(key, [])` on the adjacency tables. -/
def dictGet (d : List (String × List String)) (k : String) : List String :=
  match d.find? (fun p => p.1 == k) with
  | some p => p.2
  | none => []

/-- `is_consecutive_night`: `date2 - date1 == timedelta(days=1)`. -/
def is_consecutive_night (date1 date2 : Int) : Bool :=
  date2 - date1 == 1

/-- `is_valid_geographic_transition` from `graph_builder.py`. -/
def is_valid_geographic_transition (from_node to_node : GameNode)
    (direction : String) : Bool :=
  let from_team := from_node.team
  let to_team := to_node.team
  if direction == "northbound" then
    if from_node.city_group == some "NYC" && to_node.city_group == some "NYC"
        && from_team != to_team then
      true
    else
      (dictGet NORTHBOUND from_team).contains to_team
  else if direction == "southbound" then
    if from_node.city_group == some "NYC" && to_node.city_group == some "NYC"
        && from_team != to_team then
      true
    else
      (dictGet SOUTHBOUND from_team).contains to_team
  else
    false

/-- `get_team_geographic_order` (also the literal `geo_order` dicts). -/
def get_team_geographic_order : List (String × Nat) :=
  [("Wizards", 1), ("76ers", 2), ("Knicks", 3), ("Nets", 3), ("Celtics", 4)]

/-- Python `geo_order[team]`: `some rank`, or `none` for the `KeyError` case. -/
def geoLookup (team : String) : Option Nat :=
  match get_team_geographic_order.find? (fun p => p.1 == team) with
  | some p => some p.2
  | none => none

/-- The directed game graph: networkx `DiGraph` state.
`nodes` is the node set in insertion order; `edges` is the edge set in
insertion order, each edge carrying its current `direction` attribute. -/
structure GameGraph where
  nodes : List GameNode
  edges : List ((GameNode × GameNode) × String)
deriving DecidableEq, Repr

/-- A fresh `nx.DiGraph()`. -/
def newDiGraph : GameGraph := { nodes := [], edges := [] }

/-- `DiGraph.add_node`: no-op when a node with the same key is present. -/
def addNode (g : GameGraph) (n : GameNode) : GameGraph :=
  if g.nodes.any (fun m => nodeEq m n) then g
  else { g with nodes := g.nodes ++ [n] }

/-- Replace the direction attribute of the (unique) edge keyed `(u, v)`,
keeping its position and stored endpoint objects. -/
def updateEdge (es : List ((GameNode × GameNode) × String))
    (u v : GameNode) (d : String) : List ((GameNode × GameNode) × String) :=
  match es with
  | [] => []
  | e :: rest =>
    if nodeEq e.1.1 u && nodeEq e.1.2 v then (e.1, d) :: rest
    else e :: updateEdge rest u v d

/-- `DiGraph.add_edge(u, v, direction=d)`: ensures both endpoints are nodes,
then inserts the edge, or overwrites the attribute of an existing one. -/
def addEdge (g : GameGraph) (u v : GameNode) (d : String) : GameGraph :=
  let g := addNode (addNode g u) v
  if g.edges.any (fun e => nodeEq e.1.1 u && nodeEq e.1.2 v) then
    { g with edges := updateEdge g.edges u v d }
  else
    { g with edges := g.edges ++ [((u, v), d)] }

/-- `graph.edges[u, v].get('direction')` (`none` when the edge is absent). -/
def edgeDir (g : GameGraph) (u v : GameNode) : Option String :=
  match g.edges.find? (fun e => nodeEq e.1.1 u && nodeEq e.1.2 v) with
  | some e => some e.2
  | none => none

/-- `graph.successors(u)`: adjacency order for `u` is the order in which the
edges `(u, ·)` were first inserted, i.e. node insertion order filtered to
edge targets of `u`. -/
def successors (g : GameGraph) (u : GameNode) : List GameNode :=
  g.nodes.filter (fun v => (edgeDir g u v).isSome)

/-- `add_edges_to_graph` from `graph_builder.py`: the nested loop over the raw
node list, adding a northbound and/or a southbound edge per valid pair. -/
def add_edges_to_graph (g : GameGraph) (nodes : List GameNode) : GameGraph :=
  nodes.foldl (fun g from_node =>
    nodes.foldl (fun g to_node =>
      if nodeEq from_node to_node then g
      else if !is_consecutive_night from_node.date to_node.date then g
      else if from_node.team == to_node.team then g
      else
        let g :=
          if is_valid_geographic_transition from_node to_node "northbound" then
            addEdge g from_node to_node "northbound"
          else g
        if is_valid_geographic_transition from_node to_node "southbound" then
          addEdge g from_node to_node "southbound"
        else g) g) g

/-- `build_game_graph` from `graph_builder.py`. -/
def build_game_graph (cleaned_df : List Row) : GameGraph :=
  let nodes := cleaned_df.map rowToNode
  let G := nodes.foldl addNode newDiGraph
  add_edges_to_graph G nodes

abbrev Trip := List GameNode

/-- The recursive `dfs_northbound` closure inside `find_northbound_trips`.
Emission order matches the source: the current path is recorded before the
successor subtrees are explored, successors in adjacency order. -/
def dfs_northbound (g : GameGraph) :
    Nat → GameNode → List String → List GameNode → List Trip
  | 0, _, _, _ => []
  | fuel + 1, current_node, visited_teams, path =>
    let current_path := path ++ [current_node]
    let current_teams := visited_teams ++ [current_node.team]
    let here :=
      if 3 ≤ current_path.length && current_path.length ≤ 5
          && current_teams.contains "Wizards" then
        [current_path]
      else []
    let deeper :=
      if current_path.length < 5 then
        (successors g current_node).flatMap (fun neighbor =>
          if edgeDir g current_node neighbor == some "northbound"
              && !current_teams.contains neighbor.team then
            dfs_northbound g fuel neighbor current_teams current_path
          else [])
      else []
    here ++ deeper

/-- `find_northbound_trips` from `nba_trip_planner.py`. -/
def find_northbound_trips (g : GameGraph) (wizards_game : GameNode) :
    List Trip :=
  dfs_northbound g 5 wizards_game [] []

/-- The recursive `dfs_southbound` closure inside `find_southbound_trips`. -/
def dfs_southbound (g : GameGraph) :
    Nat → GameNode → List String → List GameNode → List Trip
  | 0, _, _, _ => []
  | fuel + 1, current_node, visited_teams, path =>
    let current_path := path ++ [current_node]
    let current_teams := visited_teams ++ [current_node.team]
    let here :=
      if current_node.team == "Wizards"
          && 3 ≤ current_path.length && current_path.length ≤ 5 then
        [current_path]
      else []
    let deeper :=
      if current_path.length < 5 then
        (successors g current_node).flatMap (fun neighbor =>
          if edgeDir g current_node neighbor == some "southbound"
              && !current_teams.contains neighbor.team then
            dfs_southbound g fuel neighbor current_teams current_path
          else [])
      else []
    here ++ deeper

/-- `find_southbound_trips` from `nba_trip_planner.py`.  Note the source never
uses its `wizards_game` parameter: the DFS is started from every non-Wizards
node of the graph. -/
def find_southbound_trips (g : GameGraph) (wizards_game : GameNode) :
    List Trip :=
  let _ := wizards_game
  (g.nodes.filter (fun n => n.team != "Wizards")).flatMap
    (fun start_node => dfs_southbound g 5 start_node [] [])

/-- `find_all_valid_trips` from `nba_trip_planner.py`. -/
def find_all_valid_trips (g : GameGraph) : List Trip :=
  let wizards_games := g.nodes.filter (fun n => n.team == "Wizards")
  wizards_games.flatMap (fun wizards_game =>
    find_northbound_trips g wizards_game ++ find_southbound_trips g wizards_game)

/-- The deduplication key of `rank_trips`: `(team, date)` pairs in path order. -/
def trip_key (t : Trip) : List (String × Int) :=
  t.map (fun n => (n.team, n.date))

/-- The duplicate-removal loop of `rank_trips` (`seen` set of keys,
first-seen survivor kept, input order preserved). -/
def dedupTrips (seen : List (List (String × Int))) : List Trip → List Trip
  | [] => []
  | t :: rest =>
    if seen.contains (trip_key t) then dedupTrips seen rest
    else t :: dedupTrips (seen ++ [trip_key t]) rest

/-- One step of the grouping loop of `rank_trips`: Python dict insertion
(keys in first-insertion order, value list appended in place). -/
def addToGroup (acc : List (Nat × List Trip)) (t : Trip) :
    List (Nat × List Trip) :=
  match acc with
  | [] => [(t.length, [t])]
  | (len, ts) :: rest =>
    if t.length == len then (len, ts ++ [t]) :: rest
    else (len, ts) :: addToGroup rest t

/-- The grouping loop of `rank_trips`. -/
def groupByLength (trips : List Trip) : List (Nat × List Trip) :=
  trips.foldl addToGroup []

/-- The jump-counting loop of `calculate_travel_efficiency`; `none` models the
`KeyError` raised by `geo_order[...]` on a team outside the fixed domain. -/
def countJumps : GameNode → List GameNode → Option Nat
  | _, [] => some 0
  | prev, curr :: rest => do
    let p ← geoLookup prev.team
    let c ← geoLookup curr.team
    let r ← countJumps curr rest
    pure (r + if p ≠ c then 1 else 0)

/-- `calculate_travel_efficiency` from `nba_trip_planner.py`. -/
def calculate_travel_efficiency (trip : Trip) : Option Nat :=
  if trip.length ≤ 1 then some 0
  else
    match trip with
    | [] => some 0
    | h :: t => countJumps h t

/-- The sort key actually used once all lookups are known to succeed. -/
def effKey (t : Trip) : Nat :=
  (calculate_travel_efficiency t).getD 0

/-- The in-group sort of `rank_trips`: Python `list.sort` is a stable sort
ascending by key, whose output coincides with stable insertion sort. -/
def sortByEff (ts : List Trip) : List Trip :=
  List.insertionSort (fun a b => effKey a ≤ effKey b) ts

/-- `rank_trips` from `nba_trip_planner.py`.  `none` models the run raising
`KeyError` while computing a sort key; otherwise the grouped, sorted mapping
is returned (Python dict as an association list in key-insertion order). -/
def rank_trips (trips : List Trip) : Option (List (Nat × List Trip)) :=
  if trips.isEmpty then some []
  else
    let unique_trips := dedupTrips [] trips
    let trips_by_length := groupByLength unique_trips
    if trips_by_length.all (fun p =>
        p.2.all (fun t => (calculate_travel_efficiency t).isSome)) then
      some (trips_by_length.map (fun p => (p.1, sortByEff p.2)))
    else none

/-- The core pipeline as composed in `main`: build the graph, search, rank. -/
def run_core (rows : List Row) : Option (List (Nat × List Trip)) :=
  rank_trips (find_all_valid_trips (build_game_graph rows))

/-! ### Concrete scenario data (spec §8 acceptance scenario and variants) -/

/-- Night-1 Wizards home game of the §8 scenario. -/
def rowW0 : Row := ⟨"Wizards", 0, "Celtics", "Capital One Arena", some "Wizards"⟩

/-- Night-2 76ers home game. -/
def rowS1 : Row := ⟨"76ers", 1, "Wizards", "Wells Fargo Center", some "76ers"⟩

/-- Night-3 Knicks home game (NYC city group). -/
def rowK2 : Row := ⟨"Knicks", 2, "76ers", "Madison Square Garden", some "NYC"⟩

/-- Night-4 Nets home game (NYC city group). -/
def rowN3 : Row := ⟨"Nets", 3, "Knicks", "Barclays Center", some "NYC"⟩

/-- Night-5 Celtics home game. -/
def rowC4 : Row := ⟨"Celtics", 4, "Nets", "TD Garden", some "Celtics"⟩

/-- The §8 five-night scenario input, ranks 1,2,3,3,4 on consecutive nights. -/
def scenarioRows : List Row := [rowW0, rowS1, rowK2, rowN3, rowC4]

/-- A record whose team is outside the fixed 5-team domain. -/
def rowLakers : Row := ⟨"Lakers", 0, "Celtics", "Crypto Arena", some "Lakers"⟩

/-! ### C1, C2: the co-located edge-label overwrite -/

/-- C1: for a co-located (NYC) consecutive-night pair with distinct teams,
both direction predicates hold and both `add_edge` calls run, yet the built
`DiGraph` edge carries only the last-written label `"southbound"`: the
northbound label is overwritten, so the edge does NOT carry both labels. -/
theorem C1_colocated_edge_single_label :
    is_valid_geographic_transition (rowToNode rowK2) (rowToNode rowN3)
      "northbound" = true ∧
    is_valid_geographic_transition (rowToNode rowK2) (rowToNode rowN3)
      "southbound" = true ∧
    edgeDir (build_game_graph [rowK2, rowN3]) (rowToNode rowK2)
      (rowToNode rowN3) = some "southbound" := by
  refine ⟨by decide, by decide, by decide⟩

/-- C2: on the §8 five-night scenario input (ranks 1,2,3,3,4 on consecutive
nights), the search returns only the single 3-night trip Wizards → 76ers →
Knicks: neither the expected 5-night forward trip nor any backward trip is
produced, because the Knicks → Nets co-located edge's direction attribute was
overwritten to `"southbound"`. -/
theorem C2_scenario_actual_output :
    find_all_valid_trips (build_game_graph scenarioRows) =
      [[rowToNode rowW0, rowToNode rowS1, rowToNode rowK2]] := by
  decide

/-! ### C5 counterexample data -/

/-- A 3-night trip Wizards, 76ers, Knicks (travel-efficiency score 2). -/
def tripWSK : Trip :=
  [⟨"Wizards", 0, "Bulls", "Capital One Arena", some "Wizards"⟩,
   ⟨"76ers", 1, "Bulls", "Wells Fargo Center", some "76ers"⟩,
   ⟨"Knicks", 2, "Bulls", "Madison Square Garden", some "NYC"⟩]

/-- A 3-night trip Wizards, 76ers, Nets (travel-efficiency score 2). -/
def tripWSN : Trip :=
  [⟨"Wizards", 0, "Bulls", "Capital One Arena", some "Wizards"⟩,
   ⟨"76ers", 1, "Bulls", "Wells Fargo Center", some "76ers"⟩,
   ⟨"Nets", 2, "Bulls", "Barclays Center", some "NYC"⟩]

/-- C5 counterexample: permuting two equal-length, equal-score trips permutes
their order inside the length-3 group of the ranker's output, so the ranker is
not permutation-invariant. -/
theorem C5_counterexample_not_permutation_invariant :
    ([tripWSK, tripWSN] : List Trip).Perm [tripWSN, tripWSK] ∧
    rank_trips [tripWSK, tripWSN] ≠ rank_trips [tripWSN, tripWSK] := by
  decide

/-- C9 counterexample: a record whose team (`"Lakers"`) is outside the fixed
5-team domain is absorbed without any signaled error: the pipeline completes
normally and returns the empty mapping. -/
theorem C9_counterexample_silently_absorbed :
    run_core [rowLakers] = some [] := by
  decide

/-! ### C8: empty and anchor-free inputs are not errors -/

/-- C8: the empty input yields a graph with no nodes and no edges; a graph
without any Wizards node makes the trip search return the empty list; the
ranker on an empty trip list returns the empty mapping.  None of these is an
error: all three functions return normally. -/
theorem C8_empty_inputs_not_errors (g : GameGraph)
    (hg : ∀ n ∈ g.nodes, n.team ≠ "Wizards") :
    (build_game_graph []).nodes = [] ∧ (build_game_graph []).edges = [] ∧
    find_all_valid_trips g = [] ∧ rank_trips ([] : List Trip) = some [] := by
  refine ⟨rfl, rfl, ?_, rfl⟩
  unfold find_all_valid_trips
  have hfilter : g.nodes.filter (fun n => n.team == "Wizards") = [] := by
    rw [List.filter_eq_nil_iff]
    intro n hn
    simpa using hg n hn
  simp [hfilter]

/-- Witness for C8 at a concrete anchor-free graph. -/
theorem C8_witness :
    (build_game_graph []).nodes = [] ∧ (build_game_graph []).edges = [] ∧
    find_all_valid_trips (build_game_graph [rowS1, rowK2]) = [] ∧
    rank_trips ([] : List Trip) = some [] :=
  C8_empty_inputs_not_errors (build_game_graph [rowS1, rowK2]) (by decide)

/-! ### C3: characterization of the transition rule -/

lemma geoLookup_cases (t : String) (r : Nat) (h : geoLookup t = some r) :
    (t = "Wizards" ∧ r = 1) ∨ (t = "76ers" ∧ r = 2) ∨ (t = "Knicks" ∧ r = 3) ∨
    (t = "Nets" ∧ r = 3) ∨ (t = "Celtics" ∧ r = 4) := by
  rcases eq_or_ne t "Wizards" with rfl | h1
  · simp only [show geoLookup "Wizards" = some 1 from rfl, Option.some.injEq] at h
    exact Or.inl ⟨rfl, h.symm⟩
  rcases eq_or_ne t "76ers" with rfl | h2
  · simp only [show geoLookup "76ers" = some 2 from rfl, Option.some.injEq] at h
    exact Or.inr (Or.inl ⟨rfl, h.symm⟩)
  rcases eq_or_ne t "Knicks" with rfl | h3
  · simp only [show geoLookup "Knicks" = some 3 from rfl, Option.some.injEq] at h
    exact Or.inr (Or.inr (Or.inl ⟨rfl, h.symm⟩))
  rcases eq_or_ne t "Nets" with rfl | h4
  · simp only [show geoLookup "Nets" = some 3 from rfl, Option.some.injEq] at h
    exact Or.inr (Or.inr (Or.inr (Or.inl ⟨rfl, h.symm⟩)))
  rcases eq_or_ne t "Celtics" with rfl | h5
  · simp only [show geoLookup "Celtics" = some 4 from rfl, Option.some.injEq] at h
    exact Or.inr (Or.inr (Or.inr (Or.inr ⟨rfl, h.symm⟩)))
  exfalso
  have h1' : ("Wizards" == t) = false := beq_eq_false_iff_ne.mpr (fun e => h1 e.symm)
  have h2' : ("76ers" == t) = false := beq_eq_false_iff_ne.mpr (fun e => h2 e.symm)
  have h3' : ("Knicks" == t) = false := beq_eq_false_iff_ne.mpr (fun e => h3 e.symm)
  have h4' : ("Nets" == t) = false := beq_eq_false_iff_ne.mpr (fun e => h4 e.symm)
  have h5' : ("Celtics" == t) = false := beq_eq_false_iff_ne.mpr (fun e => h5 e.symm)
  simp [geoLookup, get_team_geographic_order, List.find?, h1', h2', h3', h4', h5'] at h

lemma nyc_cond_iff (a b : GameNode) :
    ((a.city_group == some "NYC" && b.city_group == some "NYC")
      && a.team != b.team) = true ↔
    (a.city_group = some "NYC" ∧ b.city_group = some "NYC" ∧ a.team ≠ b.team) := by
  simp [and_assoc]

lemma is_valid_northbound_iff (a b : GameNode) :
    is_valid_geographic_transition a b "northbound" = true ↔
      ((a.city_group = some "NYC" ∧ b.city_group = some "NYC" ∧ a.team ≠ b.team)
        ∨ (dictGet NORTHBOUND a.team).contains b.team = true) := by
  by_cases hnyc : a.city_group = some "NYC" ∧ b.city_group = some "NYC" ∧ a.team ≠ b.team
  · have hc : ((a.city_group == some "NYC" && b.city_group == some "NYC")
        && a.team != b.team) = true := (nyc_cond_iff a b).mpr hnyc
    simp [is_valid_geographic_transition, hc, hnyc]
  · have hc : ((a.city_group == some "NYC" && b.city_group == some "NYC")
        && a.team != b.team) = false :=
      Bool.eq_false_iff.mpr (fun h => hnyc ((nyc_cond_iff a b).mp h))
    simp [is_valid_geographic_transition, hc, hnyc]

lemma is_valid_southbound_iff (a b : GameNode) :
    is_valid_geographic_transition a b "southbound" = true ↔
      ((a.city_group = some "NYC" ∧ b.city_group = some "NYC" ∧ a.team ≠ b.team)
        ∨ (dictGet SOUTHBOUND a.team).contains b.team = true) := by
  by_cases hnyc : a.city_group = some "NYC" ∧ b.city_group = some "NYC" ∧ a.team ≠ b.team
  · have hc : ((a.city_group == some "NYC" && b.city_group == some "NYC")
        && a.team != b.team) = true := (nyc_cond_iff a b).mpr hnyc
    simp [is_valid_geographic_transition, hc, hnyc]
  · have hc : ((a.city_group == some "NYC" && b.city_group == some "NYC")
        && a.team != b.team) = false :=
      Bool.eq_false_iff.mpr (fun h => hnyc ((nyc_cond_iff a b).mp h))
    simp [is_valid_geographic_transition, hc, hnyc]

lemma northbound_mem_iff_rank (ta tb : String) (ra rb : Nat)
    (ha : geoLookup ta = some ra) (hb : geoLookup tb = some rb) :
    (dictGet NORTHBOUND ta).contains tb = true ↔ ra < rb := by
  rcases geoLookup_cases ta ra ha with ⟨rfl, rfl⟩|⟨rfl, rfl⟩|⟨rfl, rfl⟩|⟨rfl, rfl⟩|⟨rfl, rfl⟩ <;>
    rcases geoLookup_cases tb rb hb with ⟨rfl, rfl⟩|⟨rfl, rfl⟩|⟨rfl, rfl⟩|⟨rfl, rfl⟩|⟨rfl, rfl⟩ <;>
    decide

lemma southbound_mem_iff_rank (ta tb : String) (ra rb : Nat)
    (ha : geoLookup ta = some ra) (hb : geoLookup tb = some rb) :
    (dictGet SOUTHBOUND ta).contains tb = true ↔ rb < ra := by
  rcases geoLookup_cases ta ra ha with ⟨rfl, rfl⟩|⟨rfl, rfl⟩|⟨rfl, rfl⟩|⟨rfl, rfl⟩|⟨rfl, rfl⟩ <;>
    rcases geoLookup_cases tb rb hb with ⟨rfl, rfl⟩|⟨rfl, rfl⟩|⟨rfl, rfl⟩|⟨rfl, rfl⟩|⟨rfl, rfl⟩ <;>
    decide

/-- C3: for nodes whose teams carry geographic ranks under the fixed map
(Wizards 1, 76ers 2, Knicks 3, Nets 3, Celtics 4), the transition predicate
is: always true in both directions for distinct-team co-located (NYC) pairs;
otherwise true northbound iff the target's rank is strictly greater, and true
southbound iff the target's rank is strictly lesser. -/
theorem C3_transition_rule_characterization (a b : GameNode) (ra rb : Nat)
    (ha : geoLookup a.team = some ra) (hb : geoLookup b.team = some rb) :
    ((a.city_group = some "NYC" ∧ b.city_group = some "NYC" ∧ a.team ≠ b.team) →
      is_valid_geographic_transition a b "northbound" = true ∧
      is_valid_geographic_transition a b "southbound" = true) ∧
    (¬(a.city_group = some "NYC" ∧ b.city_group = some "NYC" ∧ a.team ≠ b.team) →
      (is_valid_geographic_transition a b "northbound" = true ↔ ra < rb) ∧
      (is_valid_geographic_transition a b "southbound" = true ↔ rb < ra)) := by
  constructor
  · intro hnyc
    exact ⟨(is_valid_northbound_iff a b).mpr (Or.inl hnyc),
           (is_valid_southbound_iff a b).mpr (Or.inl hnyc)⟩
  · intro hnyc
    constructor
    · rw [is_valid_northbound_iff, northbound_mem_iff_rank a.team b.team ra rb ha hb]
      constructor
      · rintro (h | h)
        · exact absurd h hnyc
        · exact h
      · intro h
        exact Or.inr h
    · rw [is_valid_southbound_iff, southbound_mem_iff_rank a.team b.team ra rb ha hb]
      constructor
      · rintro (h | h)
        · exact absurd h hnyc
        · exact h
      · intro h
        exact Or.inr h

/-- Witness for C3 at the concrete Knicks/Nets NYC pair of the scenario. -/
theorem C3_witness :
    (((rowToNode rowK2).city_group = some "NYC" ∧
      (rowToNode rowN3).city_group = some "NYC" ∧
      (rowToNode rowK2).team ≠ (rowToNode rowN3).team) →
      is_valid_geographic_transition (rowToNode rowK2) (rowToNode rowN3)
        "northbound" = true ∧
      is_valid_geographic_transition (rowToNode rowK2) (rowToNode rowN3)
        "southbound" = true) ∧
    (¬((rowToNode rowK2).city_group = some "NYC" ∧
       (rowToNode rowN3).city_group = some "NYC" ∧
       (rowToNode rowK2).team ≠ (rowToNode rowN3).team) →
      (is_valid_geographic_transition (rowToNode rowK2) (rowToNode rowN3)
        "northbound" = true ↔ 3 < 3) ∧
      (is_valid_geographic_transition (rowToNode rowK2) (rowToNode rowN3)
        "southbound" = true ↔ 3 < 3)) :=
  C3_transition_rule_characterization (rowToNode rowK2) (rowToNode rowN3) 3 3
    (by decide) (by decide)

/-! ### Graph construction invariants -/

/-- Every edge of the graph joins games exactly one calendar day apart. -/
def edgesConsecutive (g : GameGraph) : Prop :=
  ∀ e ∈ g.edges, e.1.2.date - e.1.1.date = 1

lemma nodeEq_iff {a b : GameNode} : nodeEq a b = true ↔ nodeKey a = nodeKey b := by
  simp [nodeEq]

lemma nodeEq_refl (a : GameNode) : nodeEq a a = true :=
  nodeEq_iff.mpr rfl

lemma nodeEq_date {a b : GameNode} (h : nodeEq a b = true) : a.date = b.date := by
  have hk := nodeEq_iff.mp h
  simp only [nodeKey, Prod.mk.injEq] at hk
  exact hk.2.1

lemma nodeEq_team {a b : GameNode} (h : nodeEq a b = true) : a.team = b.team := by
  have hk := nodeEq_iff.mp h
  simp only [nodeKey, Prod.mk.injEq] at hk
  exact hk.1

lemma addNode_edges (g : GameGraph) (n : GameNode) :
    (addNode g n).edges = g.edges := by
  unfold addNode
  split <;> rfl

lemma mem_updateEdge {es : List ((GameNode × GameNode) × String)}
    {u v : GameNode} {d : String} :
    ∀ e ∈ updateEdge es u v d, ∃ e' ∈ es, e.1 = e'.1 := by
  induction es with
  | nil => intro e he; simp [updateEdge] at he
  | cons e0 rest ih =>
    intro e he
    unfold updateEdge at he
    split at he
    · rcases List.mem_cons.mp he with rfl | hmem
      · exact ⟨e0, List.mem_cons_self _ _, rfl⟩
      · exact ⟨e, List.mem_cons_of_mem _ hmem, rfl⟩
    · rcases List.mem_cons.mp he with rfl | hmem
      · exact ⟨e, List.mem_cons_self _ _, rfl⟩
      · rcases ih e hmem with ⟨e', he', heq⟩
        exact ⟨e', List.mem_cons_of_mem _ he', heq⟩

lemma addEdge_consecutive {g : GameGraph} {u v : GameNode} {d : String}
    (hg : edgesConsecutive g) (huv : v.date - u.date = 1) :
    edgesConsecutive (addEdge g u v d) := by
  intro e he
  unfold addEdge at he
  simp only [addNode_edges] at he
  split at he
  · simp only at he
    rcases mem_updateEdge e he with ⟨e', he', heq⟩
    rw [heq]
    exact hg e' he'
  · simp only at he
    rcases List.mem_append.mp he with hmem | hmem
    · exact hg e hmem
    · rcases List.mem_singleton.mp hmem with rfl
      exact huv

lemma foldl_preserves {α β : Type} (P : β → Prop) (f : β → α → β)
    (hf : ∀ b a, P b → P (f b a)) :
    ∀ (l : List α) (b : β), P b → P (l.foldl f b) := by
  intro l
  induction l with
  | nil => intro b hb; exact hb
  | cons a l ih => intro b hb; exact ih (f b a) (hf b a hb)

lemma is_consecutive_night_eq {d1 d2 : Int} (h : is_consecutive_night d1 d2 = true) :
    d2 - d1 = 1 := by
  simpa [is_consecutive_night] using h

lemma add_edges_to_graph_consecutive (g : GameGraph) (ns : List GameNode)
    (hg : edgesConsecutive g) : edgesConsecutive (add_edges_to_graph g ns) := by
  unfold add_edges_to_graph
  refine foldl_preserves edgesConsecutive _ ?_ ns g hg
  intro g from_node hgc
  refine foldl_preserves edgesConsecutive _ ?_ ns g hgc
  intro g to_node hgc2
  split
  · exact hgc2
  · split
    · exact hgc2
    · split
      · exact hgc2
      · rename_i hcons _
        have hdate : to_node.date - from_node.date = 1 := by
          cases h : is_consecutive_night from_node.date to_node.date with
          | false => rw [h] at hcons; simp at hcons
          | true => exact is_consecutive_night_eq h
        split
        · split
          · exact addEdge_consecutive (addEdge_consecutive hgc2 hdate) hdate
          · exact addEdge_consecutive hgc2 hdate
        · split
          · exact addEdge_consecutive hgc2 hdate
          · exact hgc2

lemma foldl_addNode_edges : ∀ (ns : List GameNode) (g : GameGraph),
    (ns.foldl addNode g).edges = g.edges := by
  intro ns
  induction ns with
  | nil => intro g; rfl
  | cons n ns ih => intro g; rw [List.foldl_cons, ih, addNode_edges]

lemma build_game_graph_consecutive (rows : List Row) :
    edgesConsecutive (build_game_graph rows) := by
  unfold build_game_graph
  apply add_edges_to_graph_consecutive
  intro e he
  rw [foldl_addNode_edges] at he
  simp [newDiGraph] at he

lemma edgeDir_some_date {g : GameGraph} {u v : GameNode} {d : String}
    (hg : edgesConsecutive g) (h : edgeDir g u v = some d) :
    v.date - u.date = 1 := by
  unfold edgeDir at h
  split at h
  · rename_i e hfind
    have hmem := List.mem_of_find?_eq_some hfind
    have hpred := List.find?_some hfind
    simp only [Bool.and_eq_true] at hpred
    have h1 := nodeEq_date hpred.1
    have h2 := nodeEq_date hpred.2
    rw [← h1, ← h2]
    exact hg e hmem
  · exact absurd h (by simp)

/-! ### DFS soundness (C4) -/

lemma dfs_northbound_sound (g : GameGraph) (hg : edgesConsecutive g) :
    ∀ (fuel : Nat) (current : GameNode) (visited : List String)
      (path : List GameNode),
    visited = path.map (fun n => n.team) →
    ((path ++ [current]).map (fun n => n.team)).Nodup →
    (path ++ [current]).Chain' (fun x y => y.date - x.date = 1) →
    ∀ t ∈ dfs_northbound g fuel current visited path,
      (3 ≤ t.length ∧ t.length ≤ 5) ∧
      (t.map (fun n => n.team)).Nodup ∧
      t.Chain' (fun x y => y.date - x.date = 1) ∧
      ∃ n ∈ t, n.team = "Wizards" := by
  intro fuel
  induction fuel with
  | zero =>
    intro current visited path _ _ _ t ht
    simp [dfs_northbound] at ht
  | succ fuel ih =>
    intro current visited path hvis hnd hch t ht
    rw [dfs_northbound] at ht
    simp only [List.mem_append] at ht
    rcases ht with ht | ht
    · split at ht
      · rename_i hguard
        simp only [Bool.and_eq_true, decide_eq_true_eq] at hguard
        rcases List.mem_singleton.mp ht with rfl
        refine ⟨⟨hguard.1.1, hguard.1.2⟩, hnd, hch, ?_⟩
        have hwiz : "Wizards" ∈ (path ++ [current]).map (fun n => n.team) := by
          have := hguard.2
          rw [hvis] at this
          simpa [List.map_append] using this
        rcases List.mem_map.mp hwiz with ⟨n, hn, hteam⟩
        exact ⟨n, hn, hteam⟩
      · simp at ht
    · split at ht
      · rename_i hlen
        rcases List.mem_flatMap.mp ht with ⟨nb, hnb, ht'⟩
        split at ht'
        · rename_i hcond
          simp only [Bool.and_eq_true, beq_iff_eq, Bool.not_eq_true'] at hcond
          have hedge : edgeDir g current nb = some "northbound" := hcond.1
          have hfresh : nb.team ∉ visited ++ [current.team] := by
            have := hcond.2
            simp at this
            simpa using this
          refine ih nb (visited ++ [current.team]) (path ++ [current]) ?_ ?_ ?_ t ht'
          · simp [hvis]
          · have hnotin : nb.team ∉ (path ++ [current]).map (fun n => n.team) := by
              rw [hvis] at hfresh
              simpa [List.map_append] using hfresh
            simp only [List.map_append, List.map_cons, List.map_nil] at hnd hnotin ⊢
            exact List.Nodup.append hnd (List.nodup_singleton _)
              (fun a ha hb => hnotin ((List.mem_singleton.mp hb) ▸ ha))
          · rw [List.chain'_append]
            refine ⟨hch, List.chain'_singleton nb, ?_⟩
            intro x hx y hy
            simp at hx hy
            subst hx; subst hy
            exact edgeDir_some_date hg hedge
        · simp at ht'
      · simp at ht

lemma dfs_southbound_sound (g : GameGraph) (hg : edgesConsecutive g) :
    ∀ (fuel : Nat) (current : GameNode) (visited : List String)
      (path : List GameNode),
    visited = path.map (fun n => n.team) →
    ((path ++ [current]).map (fun n => n.team)).Nodup →
    (path ++ [current]).Chain' (fun x y => y.date - x.date = 1) →
    ∀ t ∈ dfs_southbound g fuel current visited path,
      (3 ≤ t.length ∧ t.length ≤ 5) ∧
      (t.map (fun n => n.team)).Nodup ∧
      t.Chain' (fun x y => y.date - x.date = 1) ∧
      ∃ n ∈ t, n.team = "Wizards" := by
  intro fuel
  induction fuel with
  | zero =>
    intro current visited path _ _ _ t ht
    simp [dfs_southbound] at ht
  | succ fuel ih =>
    intro current visited path hvis hnd hch t ht
    rw [dfs_southbound] at ht
    simp only [List.mem_append] at ht
    rcases ht with ht | ht
    · split at ht
      · rename_i hguard
        simp only [Bool.and_eq_true, decide_eq_true_eq, beq_iff_eq] at hguard
        rcases List.mem_singleton.mp ht with rfl
        refine ⟨⟨hguard.1.2, hguard.2⟩, hnd, hch, ?_⟩
        exact ⟨current, List.mem_append.mpr (Or.inr (List.mem_singleton.mpr rfl)),
               hguard.1.1⟩
      · simp at ht
    · split at ht
      · rename_i hlen
        rcases List.mem_flatMap.mp ht with ⟨nb, hnb, ht'⟩
        split at ht'
        · rename_i hcond
          simp only [Bool.and_eq_true, beq_iff_eq, Bool.not_eq_true'] at hcond
          have hedge : edgeDir g current nb = some "southbound" := hcond.1
          have hfresh : nb.team ∉ visited ++ [current.team] := by
            have := hcond.2
            simp at this
            simpa using this
          refine ih nb (visited ++ [current.team]) (path ++ [current]) ?_ ?_ ?_ t ht'
          · simp [hvis]
          · have hnotin : nb.team ∉ (path ++ [current]).map (fun n => n.team) := by
              rw [hvis] at hfresh
              simpa [List.map_append] using hfresh
            simp only [List.map_append, List.map_cons, List.map_nil] at hnd hnotin ⊢
            exact List.Nodup.append hnd (List.nodup_singleton _)
              (fun a ha hb => hnotin ((List.mem_singleton.mp hb) ▸ ha))
          · rw [List.chain'_append]
            refine ⟨hch, List.chain'_singleton nb, ?_⟩
            intro x hx y hy
            simp at hx hy
            subst hx; subst hy
            exact edgeDir_some_date hg hedge
        · simp at ht'
      · simp at ht

lemma find_all_valid_trips_sound (rows : List Row) (t : Trip)
    (ht : t ∈ find_all_valid_trips (build_game_graph rows)) :
    (3 ≤ t.length ∧ t.length ≤ 5) ∧
    (t.map (fun n => n.team)).Nodup ∧
    t.Chain' (fun x y => y.date - x.date = 1) ∧
    ∃ n ∈ t, n.team = "Wizards" := by
  have hg := build_game_graph_consecutive rows
  unfold find_all_valid_trips at ht
  rcases List.mem_flatMap.mp ht with ⟨w, _, ht'⟩
  rcases List.mem_append.mp ht' with hnb | hsb
  · exact dfs_northbound_sound _ hg 5 w [] [] rfl (by simp) (by simp) t hnb
  · unfold find_southbound_trips at hsb
    rcases List.mem_flatMap.mp hsb with ⟨s, _, hs'⟩
    exact dfs_southbound_sound _ hg 5 s [] [] rfl (by simp) (by simp) t hs'

/-! ### Ranker membership plumbing -/

lemma dedupTrips_sublist : ∀ (l : List Trip) (seen : List (List (String × Int))),
    List.Sublist (dedupTrips seen l) l := by
  intro l
  induction l with
  | nil => intro seen; simp [dedupTrips]
  | cons t rest ih =>
    intro seen
    unfold dedupTrips
    split
    · exact List.Sublist.cons t (ih seen)
    · exact List.Sublist.cons₂ t (ih (seen ++ [trip_key t]))

lemma mem_of_mem_dedupTrips {l : List Trip} {seen : List (List (String × Int))}
    {t : Trip} (h : t ∈ dedupTrips seen l) : t ∈ l :=
  (dedupTrips_sublist l seen).subset h

lemma mem_addToGroup (acc : List (Nat × List Trip)) (t' : Trip) (ℓ : Nat)
    (ts : List Trip) (h : (ℓ, ts) ∈ addToGroup acc t') :
    ∀ x ∈ ts, (∃ p ∈ acc, x ∈ p.2) ∨ x = t' := by
  induction acc generalizing ℓ ts with
  | nil =>
    simp only [addToGroup, List.mem_singleton, Prod.mk.injEq] at h
    rcases h with ⟨rfl, rfl⟩
    intro x hx
    simp only [List.mem_singleton] at hx
    exact Or.inr hx
  | cons p0 rest ih =>
    rcases p0 with ⟨len0, ts0⟩
    unfold addToGroup at h
    split at h
    · rcases List.mem_cons.mp h with heq | hmem
      · injection heq with e1 e2
        subst e1; subst e2
        intro x hx
        rcases List.mem_append.mp hx with hx | hx
        · exact Or.inl ⟨_, List.mem_cons_self _ _, hx⟩
        · exact Or.inr (List.mem_singleton.mp hx)
      · intro x hx
        exact Or.inl ⟨(ℓ, ts), List.mem_cons_of_mem _ hmem, hx⟩
    · rcases List.mem_cons.mp h with heq | hmem
      · injection heq with e1 e2
        subst e1; subst e2
        intro x hx
        exact Or.inl ⟨_, List.mem_cons_self _ _, hx⟩
      · intro x hx
        rcases ih ℓ ts hmem x hx with ⟨p, hp, hxp⟩ | hx'
        · exact Or.inl ⟨p, List.mem_cons_of_mem _ hp, hxp⟩
        · exact Or.inr hx'

lemma mem_groupByLength_aux : ∀ (u : List Trip) (acc : List (Nat × List Trip))
    (ℓ : Nat) (ts : List Trip) (x : Trip),
    (ℓ, ts) ∈ u.foldl addToGroup acc → x ∈ ts →
    (∃ p ∈ acc, x ∈ p.2) ∨ x ∈ u := by
  intro u
  induction u with
  | nil =>
    intro acc ℓ ts x h hx
    exact Or.inl ⟨(ℓ, ts), h, hx⟩
  | cons a u ih =>
    intro acc ℓ ts x h hx
    rw [List.foldl_cons] at h
    rcases ih (addToGroup acc a) ℓ ts x h hx with ⟨p, hp, hxp⟩ | hxu
    · rcases p with ⟨ℓ', ts'⟩
      rcases mem_addToGroup acc a ℓ' ts' hp x hxp with ⟨q, hq, hxq⟩ | rfl
      · exact Or.inl ⟨q, hq, hxq⟩
      · exact Or.inr (List.mem_cons_self _ _)
    · exact Or.inr (List.mem_cons_of_mem _ hxu)

lemma rank_trips_mem {l : List Trip} {out : List (Nat × List Trip)} {ℓ : Nat}
    {gts : List Trip} {t : Trip} (h : rank_trips l = some out)
    (hout : (ℓ, gts) ∈ out) (ht : t ∈ gts) : t ∈ l := by
  unfold rank_trips at h
  split at h
  · rcases Option.some.inj h with rfl
    simp at hout
  · dsimp only at h
    split at h
    · rcases Option.some.inj h with rfl
      rcases List.mem_map.mp hout with ⟨p, hp, heq⟩
      injection heq with h1 h2
      have ht2 : t ∈ p.2 := by
        rw [← h2] at ht
        exact (List.perm_insertionSort (fun a b => effKey a ≤ effKey b) p.2).subset ht
      have := mem_groupByLength_aux (dedupTrips [] l) [] p.1 p.2 t hp ht2
      rcases this with ⟨q, hq, _⟩ | hmem
      · simp at hq
      · exact mem_of_mem_dedupTrips hmem
    · exact absurd h (by simp)

/-- C4: every trip in the ranker's output (over the search results of a built
graph) has length in {3,4,5}, pairwise-distinct teams, consecutive nodes
exactly one calendar day apart, and contains the anchor team Wizards. -/
theorem C4_ranked_trip_invariants (rows : List Row)
    (out : List (Nat × List Trip)) (ℓ : Nat) (gts : List Trip) (t : Trip)
    (h : rank_trips (find_all_valid_trips (build_game_graph rows)) = some out)
    (hout : (ℓ, gts) ∈ out) (ht : t ∈ gts) :
    (t.length = 3 ∨ t.length = 4 ∨ t.length = 5) ∧
    (t.map (fun n => n.team)).Nodup ∧
    t.Chain' (fun x y => y.date - x.date = 1) ∧
    ∃ n ∈ t, n.team = "Wizards" := by
  have hmem := rank_trips_mem h hout ht
  have hs := find_all_valid_trips_sound rows t hmem
  exact ⟨by omega, hs.2.1, hs.2.2.1, hs.2.2.2⟩

/-- Witness for C4 at the §8 scenario input. -/
theorem C4_witness :
    (([rowToNode rowW0, rowToNode rowS1, rowToNode rowK2] : Trip).length = 3 ∨
     ([rowToNode rowW0, rowToNode rowS1, rowToNode rowK2] : Trip).length = 4 ∨
     ([rowToNode rowW0, rowToNode rowS1, rowToNode rowK2] : Trip).length = 5) ∧
    (([rowToNode rowW0, rowToNode rowS1, rowToNode rowK2] : Trip).map
      (fun n => n.team)).Nodup ∧
    ([rowToNode rowW0, rowToNode rowS1, rowToNode rowK2] : Trip).Chain'
      (fun x y => y.date - x.date = 1) ∧
    ∃ n ∈ ([rowToNode rowW0, rowToNode rowS1, rowToNode rowK2] : Trip),
      n.team = "Wizards" :=
  C4_ranked_trip_invariants scenarioRows
    [(3, [[rowToNode rowW0, rowToNode rowS1, rowToNode rowK2]])] 3
    [[rowToNode rowW0, rowToNode rowS1, rowToNode rowK2]]
    [rowToNode rowW0, rowToNode rowS1, rowToNode rowK2]
    (by decide) (by decide) (by decide)

/-! ### Grouping characterization -/

/-- Dict lookup on the grouped association list (`ranked_trips.get(length, [])`). -/
def gget (acc : List (Nat × List Trip)) (ℓ : Nat) : List Trip :=
  match acc.find? (fun p => p.1 == ℓ) with
  | some p => p.2
  | none => []

lemma gget_nil (ℓ : Nat) : gget [] ℓ = [] := rfl

lemma gget_cons (len0 : Nat) (ts0 : List Trip) (rest : List (Nat × List Trip))
    (ℓ : Nat) :
    gget ((len0, ts0) :: rest) ℓ =
      if (len0 == ℓ) = true then ts0 else gget rest ℓ := by
  cases hb : (len0 == ℓ) with
  | true => simp [gget, List.find?, hb]
  | false => simp [gget, List.find?, hb]

lemma addToGroup_cons_eq {t : Trip} {len0 : Nat} (ts0 : List Trip)
    (rest : List (Nat × List Trip)) (h : (t.length == len0) = true) :
    addToGroup ((len0, ts0) :: rest) t = (len0, ts0 ++ [t]) :: rest := by
  simp [addToGroup, h]

lemma addToGroup_cons_ne {t : Trip} {len0 : Nat} (ts0 : List Trip)
    (rest : List (Nat × List Trip)) (h : (t.length == len0) = false) :
    addToGroup ((len0, ts0) :: rest) t = (len0, ts0) :: addToGroup rest t := by
  simp [addToGroup, h]

lemma gget_addToGroup (acc : List (Nat × List Trip)) (t : Trip) (ℓ : Nat) :
    gget (addToGroup acc t) ℓ =
      gget acc ℓ ++ (if (t.length == ℓ) = true then [t] else []) := by
  induction acc with
  | nil =>
    cases hb : (t.length == ℓ) with
    | true => simp [addToGroup, gget_cons, gget_nil, hb]
    | false => simp [addToGroup, gget_cons, gget_nil, hb]
  | cons p0 rest ih =>
    rcases p0 with ⟨len0, ts0⟩
    cases hb : (t.length == len0) with
    | true =>
      rw [addToGroup_cons_eq ts0 rest hb, gget_cons, gget_cons]
      have hlen : t.length = len0 := beq_iff_eq.mp hb
      cases hb2 : (len0 == ℓ) with
      | true =>
        have hb3 : (t.length == ℓ) = true :=
          beq_iff_eq.mpr (hlen.trans (beq_iff_eq.mp hb2))
        simp [hb2, hb3]
      | false =>
        have hb3 : (t.length == ℓ) = false := by
          rw [hlen]; exact hb2
        simp [hb2, hb3]
    | false =>
      rw [addToGroup_cons_ne ts0 rest hb, gget_cons, gget_cons]
      have hne : t.length ≠ len0 := by simpa using hb
      cases hb2 : (len0 == ℓ) with
      | true =>
        have hb3 : (t.length == ℓ) = false := by
          have : t.length ≠ ℓ := (beq_iff_eq.mp hb2) ▸ hne
          simpa using this
        simp [hb2, hb3]
      | false =>
        simp [hb2, ih]

lemma gget_foldl : ∀ (u : List Trip) (acc : List (Nat × List Trip)) (ℓ : Nat),
    gget (u.foldl addToGroup acc) ℓ =
      gget acc ℓ ++ u.filter (fun t => t.length == ℓ) := by
  intro u
  induction u with
  | nil => intro acc ℓ; simp
  | cons t u ih =>
    intro acc ℓ
    rw [List.foldl_cons, ih, gget_addToGroup]
    cases hb : (t.length == ℓ) with
    | true => simp [List.filter_cons, hb]
    | false => simp [List.filter_cons, hb]

lemma addToGroup_keys_sub (acc : List (Nat × List Trip)) (t : Trip) :
    ∀ k ∈ (addToGroup acc t).map (fun p => p.1),
      k ∈ acc.map (fun p => p.1) ∨ k = t.length := by
  induction acc with
  | nil =>
    intro k hk
    simp only [addToGroup, List.map_cons, List.map_nil, List.mem_singleton] at hk
    exact Or.inr hk
  | cons p0 rest ih =>
    rcases p0 with ⟨len0, ts0⟩
    intro k hk
    cases hb : (t.length == len0) with
    | true =>
      rw [addToGroup_cons_eq ts0 rest hb] at hk
      simp only [List.map_cons, List.mem_cons] at hk
      rcases hk with rfl | hk
      · exact Or.inl (by simp)
      · exact Or.inl (by simp [hk])
    | false =>
      rw [addToGroup_cons_ne ts0 rest hb] at hk
      simp only [List.map_cons, List.mem_cons] at hk
      rcases hk with rfl | hk
      · exact Or.inl (by simp)
      · rcases ih k hk with h | h
        · exact Or.inl (by simp [h])
        · exact Or.inr h

lemma addToGroup_keys_nodup (acc : List (Nat × List Trip)) (t : Trip)
    (h : (acc.map (fun p => p.1)).Nodup) :
    ((addToGroup acc t).map (fun p => p.1)).Nodup := by
  induction acc with
  | nil => simp [addToGroup]
  | cons p0 rest ih =>
    rcases p0 with ⟨len0, ts0⟩
    simp only [List.map_cons, List.nodup_cons] at h
    cases hb : (t.length == len0) with
    | true =>
      rw [addToGroup_cons_eq ts0 rest hb]
      simp only [List.map_cons, List.nodup_cons]
      exact h
    | false =>
      rw [addToGroup_cons_ne ts0 rest hb]
      simp only [List.map_cons, List.nodup_cons]
      refine ⟨?_, ih h.2⟩
      intro hmem
      rcases addToGroup_keys_sub rest t len0 hmem with hk | hk
      · exact h.1 hk
      · rw [hk] at hb
        simp at hb

lemma groupByLength_keys_nodup (u : List Trip) :
    ((groupByLength u).map (fun p => p.1)).Nodup := by
  unfold groupByLength
  have haux : ∀ (v : List Trip) (acc : List (Nat × List Trip)),
      (acc.map (fun p => p.1)).Nodup →
      ((v.foldl addToGroup acc).map (fun p => p.1)).Nodup := by
    intro v
    induction v with
    | nil => intro acc h; exact h
    | cons t v ih =>
      intro acc h
      exact ih (addToGroup acc t) (addToGroup_keys_nodup acc t h)
  exact haux u [] (by simp)

lemma find?_eq_of_mem_keysNodup :
    ∀ (acc : List (Nat × List Trip)) (ℓ : Nat) (ts : List Trip),
    (acc.map (fun p => p.1)).Nodup → (ℓ, ts) ∈ acc →
    acc.find? (fun p => p.1 == ℓ) = some (ℓ, ts) := by
  intro acc
  induction acc with
  | nil => intro ℓ ts _ h; simp at h
  | cons p0 rest ih =>
    rcases p0 with ⟨len0, ts0⟩
    intro ℓ ts hnd hmem
    simp only [List.map_cons, List.nodup_cons] at hnd
    rcases List.mem_cons.mp hmem with heq | hmem'
    · injection heq with e1 e2
      subst e1; subst e2
      simp [List.find?]
    · have hne : len0 ≠ ℓ := by
        intro e
        subst e
        exact hnd.1 (List.mem_map.mpr ⟨(len0, ts), hmem', rfl⟩)
      have hb : (len0 == ℓ) = false := by simpa using hne
      simp only [List.find?, hb]
      exact ih ℓ ts hnd.2 hmem'

lemma mem_groupByLength_eq_filter {u : List Trip} {ℓ : Nat} {ts : List Trip}
    (h : (ℓ, ts) ∈ groupByLength u) :
    ts = u.filter (fun t => t.length == ℓ) := by
  have hfind := find?_eq_of_mem_keysNodup (groupByLength u) ℓ ts
    (groupByLength_keys_nodup u) h
  have hg : gget (groupByLength u) ℓ = ts := by
    unfold gget
    rw [hfind]
  rw [← hg]
  unfold groupByLength
  rw [gget_foldl]
  simp [gget_nil]

/-! ### Sortedness and stability of the in-group sort -/

lemma sortByEff_pairwise (ts : List Trip) :
    (sortByEff ts).Pairwise (fun a b => effKey a ≤ effKey b) := by
  haveI : IsTotal Trip (fun a b => effKey a ≤ effKey b) :=
    ⟨fun a b => Nat.le_total (effKey a) (effKey b)⟩
  haveI : IsTrans Trip (fun a b => effKey a ≤ effKey b) :=
    ⟨fun _ _ _ h1 h2 => Nat.le_trans h1 h2⟩
  exact List.sorted_insertionSort (fun a b => effKey a ≤ effKey b) ts

lemma filter_orderedInsert_eq (c : Nat) (x : Trip) (l : List Trip)
    (hx : effKey x = c) :
    (List.orderedInsert (fun a b => effKey a ≤ effKey b) x l).filter
        (fun t => effKey t == c) =
      x :: l.filter (fun t => effKey t == c) := by
  induction l with
  | nil => simp [List.orderedInsert, List.filter, hx]
  | cons b l ih =>
    simp only [List.orderedInsert]
    split
    · simp [List.filter_cons, hx]
    · rename_i hr
      have hb : effKey b < c := by
        rw [← hx]; omega
      have hbne : (effKey b == c) = false := by
        have hne : effKey b ≠ c := Nat.ne_of_lt hb
        simpa using hne
      simp [List.filter_cons, hbne, ih]

lemma filter_orderedInsert_ne (c : Nat) (x : Trip) (l : List Trip)
    (hx : effKey x ≠ c) :
    (List.orderedInsert (fun a b => effKey a ≤ effKey b) x l).filter
        (fun t => effKey t == c) =
      l.filter (fun t => effKey t == c) := by
  have hxne : (effKey x == c) = false := by simpa using hx
  induction l with
  | nil => simp [List.orderedInsert, List.filter, hxne]
  | cons b l ih =>
    simp only [List.orderedInsert]
    split
    · simp [List.filter_cons, hxne]
    · simp only [List.filter_cons]
      cases hbc : (effKey b == c) with
      | true => simp [hbc, ih]
      | false => simp [hbc, ih]

lemma sortByEff_filter_eq (c : Nat) (u : List Trip) :
    (sortByEff u).filter (fun t => effKey t == c) =
      u.filter (fun t => effKey t == c) := by
  induction u with
  | nil => rfl
  | cons x u ih =>
    unfold sortByEff at ih ⊢
    simp only [List.insertionSort]
    by_cases hx : effKey x = c
    · rw [filter_orderedInsert_eq c x _ hx, ih, List.filter_cons]
      simp [hx]
    · rw [filter_orderedInsert_ne c x _ hx, ih, List.filter_cons]
      have : (effKey x == c) = false := by simpa using hx
      simp [this]

lemma rank_trips_group_eq {l : List Trip} {out : List (Nat × List Trip)}
    {ℓ : Nat} {gts : List Trip} (h : rank_trips l = some out)
    (hout : (ℓ, gts) ∈ out) :
    gts = sortByEff ((dedupTrips [] l).filter (fun t => t.length == ℓ)) := by
  unfold rank_trips at h
  split at h
  · rcases Option.some.inj h with rfl
    simp at hout
  · dsimp only at h
    split at h
    · rcases Option.some.inj h with rfl
      rcases List.mem_map.mp hout with ⟨p, hp, heq⟩
      rcases p with ⟨pl, pts⟩
      injection heq with h1 h2
      subst h1
      rw [← h2, mem_groupByLength_eq_filter hp]
    · exact absurd h (by simp)

/-- C7: in the ranker's output, every length group is sorted ascending by
travel-efficiency score (adjacent pairs satisfy `score i ≤ score (i+1)`), and
equal-score trips keep the relative order they had after deduplication (the
sort is stable: filtering the group to any fixed score equals filtering the
deduplicated trips of that length to the same score). -/
theorem C7_groups_sorted_ascending_stable (l : List Trip)
    (out : List (Nat × List Trip)) (ℓ : Nat) (gts : List Trip)
    (h : rank_trips l = some out) (hout : (ℓ, gts) ∈ out) :
    gts.Pairwise (fun a b => effKey a ≤ effKey b) ∧
    ∀ c : Nat, gts.filter (fun t => effKey t == c) =
      ((dedupTrips [] l).filter (fun t => t.length == ℓ)).filter
        (fun t => effKey t == c) := by
  have hg := rank_trips_group_eq h hout
  subst hg
  exact ⟨sortByEff_pairwise _, fun c => sortByEff_filter_eq c _⟩

/-- Witness for C7 at a concrete two-trip input. -/
theorem C7_witness :
    ([tripWSK, tripWSN] : List Trip).Pairwise (fun a b => effKey a ≤ effKey b) ∧
    ([tripWSK, tripWSN] : List Trip).filter (fun t => effKey t == 2) =
      ((dedupTrips [] [tripWSK, tripWSN]).filter (fun t => t.length == 3)).filter
        (fun t => effKey t == 2) :=
  ⟨(C7_groups_sorted_ascending_stable [tripWSK, tripWSN]
      [(3, [tripWSK, tripWSN])] 3 [tripWSK, tripWSN] (by decide) (by decide)).1,
   (C7_groups_sorted_ascending_stable [tripWSK, tripWSN]
      [(3, [tripWSK, tripWSN])] 3 [tripWSK, tripWSN] (by decide) (by decide)).2 2⟩

/-! ### Deduplication and flattening (C6) -/

lemma flatMap_addToGroup (acc : List (Nat × List Trip)) (t : Trip) :
    ((addToGroup acc t).flatMap (fun p => p.2)).Perm
      (acc.flatMap (fun p => p.2) ++ [t]) := by
  induction acc with
  | nil => simp [addToGroup]
  | cons p0 rest ih =>
    rcases p0 with ⟨len0, ts0⟩
    cases hb : (t.length == len0) with
    | true =>
      rw [addToGroup_cons_eq ts0 rest hb]
      simp only [List.flatMap_cons]
      have h1 : (ts0 ++ [t]) ++ rest.flatMap (fun p => p.2) =
          ts0 ++ ([t] ++ rest.flatMap (fun p => p.2)) := by
        rw [List.append_assoc]
      have h2 : (ts0 ++ ([t] ++ rest.flatMap (fun p => p.2))).Perm
          (ts0 ++ (rest.flatMap (fun p => p.2) ++ [t])) :=
        List.Perm.append_left ts0 List.perm_append_comm
      have h3 : ts0 ++ (rest.flatMap (fun p => p.2) ++ [t]) =
          (ts0 ++ rest.flatMap (fun p => p.2)) ++ [t] :=
        (List.append_assoc ..).symm
      rw [h1, ← h3]
      exact h2
    | false =>
      rw [addToGroup_cons_ne ts0 rest hb]
      simp only [List.flatMap_cons]
      have h2 : (ts0 ++ (addToGroup rest t).flatMap (fun p => p.2)).Perm
          (ts0 ++ (rest.flatMap (fun p => p.2) ++ [t])) :=
        List.Perm.append_left ts0 ih
      rw [← List.append_assoc] at h2
      exact h2

lemma flatMap_foldl_addToGroup :
    ∀ (u : List Trip) (acc : List (Nat × List Trip)),
    ((u.foldl addToGroup acc).flatMap (fun p => p.2)).Perm
      (acc.flatMap (fun p => p.2) ++ u) := by
  intro u
  induction u with
  | nil => intro acc; simp
  | cons t u ih =>
    intro acc
    rw [List.foldl_cons]
    have h1 := ih (addToGroup acc t)
    have h2 := List.Perm.append_right u (flatMap_addToGroup acc t)
    have h3 := h1.trans h2
    rw [List.append_assoc] at h3
    simpa using h3

lemma flatMap_groupByLength (u : List Trip) :
    ((groupByLength u).flatMap (fun p => p.2)).Perm u := by
  have h := flatMap_foldl_addToGroup u []
  simpa using h

lemma flatMap_map_sort (acc : List (Nat × List Trip)) :
    ((acc.map (fun p => (p.1, sortByEff p.2))).flatMap (fun p => p.2)).Perm
      (acc.flatMap (fun p => p.2)) := by
  induction acc with
  | nil => simp
  | cons p rest ih =>
    simp only [List.map_cons, List.flatMap_cons]
    exact List.Perm.append
      (List.perm_insertionSort (fun a b => effKey a ≤ effKey b) p.2) ih

lemma dedupTrips_keys (l : List Trip) :
    ∀ (seen : List (List (String × Int))),
    ((dedupTrips seen l).map trip_key).Nodup ∧
    ∀ t ∈ dedupTrips seen l, trip_key t ∉ seen := by
  induction l with
  | nil => intro seen; simp [dedupTrips]
  | cons t rest ih =>
    intro seen
    unfold dedupTrips
    split
    · exact ih seen
    · rename_i hseen
      have hnotseen : trip_key t ∉ seen := by simpa using hseen
      obtain ⟨hnd, hnotin⟩ := ih (seen ++ [trip_key t])
      constructor
      · simp only [List.map_cons, List.nodup_cons]
        refine ⟨?_, hnd⟩
        intro hmem
        rcases List.mem_map.mp hmem with ⟨u, hu, hkey⟩
        have hni := hnotin u hu
        simp only [List.mem_append, List.mem_singleton, not_or] at hni
        exact hni.2 hkey
      · intro u hu
        rcases List.mem_cons.mp hu with rfl | hu'
        · exact hnotseen
        · have hni := hnotin u hu'
          simp only [List.mem_append, List.mem_singleton, not_or] at hni
          exact hni.1

lemma dedupTrips_covers (l : List Trip) :
    ∀ (seen : List (List (String × Int))) (x : Trip), x ∈ l →
    trip_key x ∈ seen ∨ ∃ u ∈ dedupTrips seen l, trip_key u = trip_key x := by
  induction l with
  | nil => intro seen x hx; simp at hx
  | cons t rest ih =>
    intro seen x hx
    unfold dedupTrips
    split
    · rename_i hseen
      have hseen' : trip_key t ∈ seen := by simpa using hseen
      rcases List.mem_cons.mp hx with rfl | hx'
      · exact Or.inl hseen'
      · exact ih seen x hx'
    · rcases List.mem_cons.mp hx with rfl | hx'
      · exact Or.inr ⟨x, List.mem_cons_self _ _, rfl⟩
      · rcases ih (seen ++ [trip_key t]) x hx' with hmem | ⟨u, hu, hkey⟩
        · rcases List.mem_append.mp hmem with h | h
          · exact Or.inl h
          · exact Or.inr ⟨t, List.mem_cons_self _ _,
              (List.mem_singleton.mp h).symm⟩
        · exact Or.inr ⟨u, List.mem_cons_of_mem _ hu, hkey⟩

lemma rank_trips_flat_perm {l : List Trip} {out : List (Nat × List Trip)}
    (h : rank_trips l = some out) :
    ((out.flatMap (fun p => p.2))).Perm (dedupTrips [] l) := by
  unfold rank_trips at h
  split at h
  · rcases Option.some.inj h with rfl
    rename_i hemp
    have hl : l = [] := by simpa using hemp
    subst hl
    simp [dedupTrips]
  · dsimp only at h
    split at h
    · rcases Option.some.inj h with rfl
      exact (flatMap_map_sort _).trans (flatMap_groupByLength _)
    · exact absurd h (by simp)

/-- C6: in the ranker's output, trips with identical ordered (team, date)
sequences collapse to exactly one entry (the flattened output has pairwise
distinct keys yet covers every input trip's key), and the deduplication stage
preserves first-seen input order (its result is a sublist of the input). -/
theorem C6_dedup_collapses_by_key (l : List Trip) (out : List (Nat × List Trip))
    (h : rank_trips l = some out) :
    ((out.flatMap (fun p => p.2)).map trip_key).Nodup ∧
    (∀ t ∈ l, ∃ u ∈ out.flatMap (fun p => p.2), trip_key u = trip_key t) ∧
    List.Sublist (dedupTrips [] l) l := by
  have hperm := rank_trips_flat_perm h
  refine ⟨?_, ?_, dedupTrips_sublist l []⟩
  · exact ((hperm.map trip_key).nodup_iff).mpr (dedupTrips_keys l []).1
  · intro t ht
    rcases dedupTrips_covers l [] t ht with hmem | ⟨u, hu, hkey⟩
    · simp at hmem
    · exact ⟨u, hperm.symm.subset hu, hkey⟩

/-- Witness for C6 at a concrete input containing a key-duplicate pair. -/
theorem C6_witness :
    ((([(3, [tripWSK, tripWSN])] : List (Nat × List Trip)).flatMap
        (fun p => p.2)).map trip_key).Nodup ∧
    (∀ t ∈ [tripWSK, tripWSN, tripWSK],
      ∃ u ∈ ([(3, [tripWSK, tripWSN])] : List (Nat × List Trip)).flatMap
        (fun p => p.2), trip_key u = trip_key t) ∧
    List.Sublist (dedupTrips [] [tripWSK, tripWSN, tripWSK])
      [tripWSK, tripWSN, tripWSK] :=
  C6_dedup_collapses_by_key [tripWSK, tripWSN, tripWSK]
    [(3, [tripWSK, tripWSN])] (by decide)

/-! ### Permutation behaviour of the ranker (C5) -/

lemma dedupTrips_nodup (l : List Trip) : (dedupTrips [] l).Nodup :=
  (dedupTrips_keys l []).1.of_map

lemma mem_dedupTrips_of_inj {l : List Trip}
    (hinj : ∀ t1 ∈ l, ∀ t2 ∈ l, trip_key t1 = trip_key t2 → t1 = t2)
    {t : Trip} (ht : t ∈ l) : t ∈ dedupTrips [] l := by
  rcases dedupTrips_covers l [] t ht with hmem | ⟨u, hu, hkey⟩
  · simp at hmem
  · have hul : u ∈ l := mem_of_mem_dedupTrips hu
    rw [hinj u hul t ht hkey] at hu
    exact hu

lemma dedupTrips_perm_of_perm {l1 l2 : List Trip}
    (hinj : ∀ t1 ∈ l1, ∀ t2 ∈ l1, trip_key t1 = trip_key t2 → t1 = t2)
    (hperm : l1.Perm l2) :
    (dedupTrips [] l1).Perm (dedupTrips [] l2) := by
  have hinj2 : ∀ t1 ∈ l2, ∀ t2 ∈ l2, trip_key t1 = trip_key t2 → t1 = t2 :=
    fun t1 h1 t2 h2 hk =>
      hinj t1 (hperm.symm.subset h1) t2 (hperm.symm.subset h2) hk
  rw [List.perm_ext_iff_of_nodup (dedupTrips_nodup l1) (dedupTrips_nodup l2)]
  intro x
  constructor
  · intro hx
    exact mem_dedupTrips_of_inj hinj2 (hperm.subset (mem_of_mem_dedupTrips hx))
  · intro hx
    exact mem_dedupTrips_of_inj hinj
      (hperm.symm.subset (mem_of_mem_dedupTrips hx))

lemma rank_trips_gget {l : List Trip} {out : List (Nat × List Trip)}
    (h : rank_trips l = some out) (ℓ : Nat) :
    gget out ℓ = sortByEff ((dedupTrips [] l).filter (fun t => t.length == ℓ)) := by
  cases hfind : out.find? (fun p => p.1 == ℓ) with
  | some p =>
    have hp_mem := List.mem_of_find?_eq_some hfind
    have hp_key : p.1 = ℓ := by
      have hx := List.find?_some hfind
      simpa using hx
    have hpe : p = (ℓ, p.2) := by
      rcases p with ⟨pk, pv⟩
      simp only at hp_key
      rw [hp_key]
    rw [hpe] at hp_mem
    have hgg : gget out ℓ = p.2 := by
      unfold gget
      rw [hfind]
    rw [hgg]
    exact rank_trips_group_eq h hp_mem
  | none =>
    have hgg : gget out ℓ = [] := by
      unfold gget
      rw [hfind]
    rw [hgg]
    have hnone := List.find?_eq_none.mp hfind
    by_cases hf : (dedupTrips [] l).filter (fun t => t.length == ℓ) = []
    · rw [hf]
      rfl
    · exfalso
      unfold rank_trips at h
      split at h
      · rename_i hemp
        have hl : l = [] := by simpa using hemp
        subst hl
        simp [dedupTrips] at hf
      · dsimp only at h
        split at h
        · rcases Option.some.inj h with rfl
          have hgf2 : gget (groupByLength (dedupTrips [] l)) ℓ =
              (dedupTrips [] l).filter (fun t => t.length == ℓ) := by
            unfold groupByLength
            have hx := gget_foldl (dedupTrips [] l) [] ℓ
            simpa [gget_nil] using hx
          have hex : ∃ p, (groupByLength (dedupTrips [] l)).find?
              (fun p => p.1 == ℓ) = some p := by
            cases hfind2 : (groupByLength (dedupTrips [] l)).find?
                (fun p => p.1 == ℓ) with
            | some q => exact ⟨q, rfl⟩
            | none =>
              exfalso
              apply hf
              rw [← hgf2]
              unfold gget
              rw [hfind2]
          rcases hex with ⟨q, hq⟩
          have hq_mem := List.mem_of_find?_eq_some hq
          have hq_key : q.1 = ℓ := by
            have hx := List.find?_some hq
            simpa using hx
          exact hnone (q.1, sortByEff q.2)
            (List.mem_map.mpr ⟨q, hq_mem, rfl⟩) (by simpa using hq_key)
        · exact absurd h (by simp)

/-- C5 (amended): for inputs on which the (team, date)-key is injective, any
permutation of the input yields the same length groups up to order within
each group; full equality of outputs fails (see the counterexample). -/
theorem C5_amended_groups_perm_invariant (l1 l2 : List Trip)
    (out1 out2 : List (Nat × List Trip))
    (hinj : ∀ t1 ∈ l1, ∀ t2 ∈ l1, trip_key t1 = trip_key t2 → t1 = t2)
    (hperm : l1.Perm l2)
    (h1 : rank_trips l1 = some out1) (h2 : rank_trips l2 = some out2) :
    ∀ ℓ : Nat, (gget out1 ℓ).Perm (gget out2 ℓ) := by
  intro ℓ
  rw [rank_trips_gget h1 ℓ, rank_trips_gget h2 ℓ]
  have hd := dedupTrips_perm_of_perm hinj hperm
  have hfl := hd.filter (fun t => t.length == ℓ)
  exact ((List.perm_insertionSort _ _).trans hfl).trans
    (List.perm_insertionSort _ _).symm

/-- Witness for C5's amended theorem at a concrete two-trip permutation. -/
theorem C5_witness :
    (gget [(3, [tripWSK, tripWSN])] 3).Perm (gget [(3, [tripWSN, tripWSK])] 3) :=
  C5_amended_groups_perm_invariant [tripWSK, tripWSN] [tripWSN, tripWSK]
    [(3, [tripWSK, tripWSN])] [(3, [tripWSN, tripWSK])]
    (by decide) (by decide) (by decide) (by decide) 3

/-! ### Node-set and DFS duplicate-freedom (C10) -/

lemma addNode_nodes_nodup {g : GameGraph} (h : g.nodes.Nodup) (n : GameNode) :
    (addNode g n).nodes.Nodup := by
  unfold addNode
  split
  · exact h
  · rename_i hany
    have hnot : n ∉ g.nodes := by
      intro hmem
      exact hany (List.any_eq_true.mpr ⟨n, hmem, nodeEq_refl n⟩)
    exact List.Nodup.append h (List.nodup_singleton n)
      (fun a ha hb => hnot ((List.mem_singleton.mp hb) ▸ ha))

lemma addEdge_nodes (g : GameGraph) (u v : GameNode) (d : String) :
    (addEdge g u v d).nodes = (addNode (addNode g u) v).nodes := by
  unfold addEdge
  dsimp only
  split <;> rfl

lemma addEdge_nodes_nodup {g : GameGraph} (h : g.nodes.Nodup)
    (u v : GameNode) (d : String) : (addEdge g u v d).nodes.Nodup := by
  rw [addEdge_nodes]
  exact addNode_nodes_nodup (addNode_nodes_nodup h u) v

lemma add_edges_to_graph_nodes_nodup (g : GameGraph) (ns : List GameNode)
    (hg : g.nodes.Nodup) : (add_edges_to_graph g ns).nodes.Nodup := by
  unfold add_edges_to_graph
  refine foldl_preserves (fun g => g.nodes.Nodup) _ ?_ ns g hg
  intro g from_node hgc
  refine foldl_preserves (fun g => g.nodes.Nodup) _ ?_ ns g hgc
  intro g to_node hgc2
  split
  · exact hgc2
  · split
    · exact hgc2
    · split
      · exact hgc2
      · split
        · split
          · exact addEdge_nodes_nodup (addEdge_nodes_nodup hgc2 ..) ..
          · exact addEdge_nodes_nodup hgc2 ..
        · split
          · exact addEdge_nodes_nodup hgc2 ..
          · exact hgc2

lemma build_game_graph_nodes_nodup (rows : List Row) :
    (build_game_graph rows).nodes.Nodup := by
  unfold build_game_graph
  apply add_edges_to_graph_nodes_nodup
  refine foldl_preserves (fun g => g.nodes.Nodup) _ ?_ _ newDiGraph (by simp [newDiGraph])
  intro g n hg
  exact addNode_nodes_nodup hg n

lemma nodup_flatMap_of_disjoint {α β : Type} (l : List α) (f : α → List β)
    (hl : l.Nodup) (hf : ∀ a ∈ l, (f a).Nodup)
    (hdisj : ∀ a ∈ l, ∀ b ∈ l, a ≠ b → ∀ x ∈ f a, x ∉ f b) :
    (l.flatMap f).Nodup := by
  induction l with
  | nil => simp
  | cons a l ih =>
    simp only [List.flatMap_cons]
    rcases List.nodup_cons.mp hl with ⟨hal, hl'⟩
    refine List.Nodup.append (hf a (List.mem_cons_self _ _)) ?_ ?_
    · exact ih hl' (fun b hb => hf b (List.mem_cons_of_mem _ hb))
        (fun b hb c hc => hdisj b (List.mem_cons_of_mem _ hb)
          c (List.mem_cons_of_mem _ hc))
    · intro x hxa hxl
      rcases List.mem_flatMap.mp hxl with ⟨b, hb, hxb⟩
      have hab : a ≠ b := fun e => hal (e ▸ hb)
      exact hdisj a (List.mem_cons_self _ _) b (List.mem_cons_of_mem _ hb)
        hab x hxa hxb

lemma dfs_southbound_shape (g : GameGraph) :
    ∀ (fuel : Nat) (cur : GameNode) (vis : List String)
      (path : List GameNode) (t : Trip),
    t ∈ dfs_southbound g fuel cur vis path → ∃ r, t = path ++ cur :: r := by
  intro fuel
  induction fuel with
  | zero => intro cur vis path t ht; simp [dfs_southbound] at ht
  | succ fuel ih =>
    intro cur vis path t ht
    rw [dfs_southbound] at ht
    simp only [List.mem_append] at ht
    rcases ht with ht | ht
    · split at ht
      · rcases List.mem_singleton.mp ht with rfl
        exact ⟨[], rfl⟩
      · simp at ht
    · split at ht
      · rcases List.mem_flatMap.mp ht with ⟨nb, _, ht'⟩
        split at ht'
        · rcases ih nb (vis ++ [cur.team]) (path ++ [cur]) t ht' with ⟨r', hr'⟩
          refine ⟨nb :: r', ?_⟩
          rw [hr', List.append_assoc]
          rfl
        · simp at ht'
      · simp at ht

lemma dfs_northbound_shape (g : GameGraph) :
    ∀ (fuel : Nat) (cur : GameNode) (vis : List String)
      (path : List GameNode) (t : Trip),
    t ∈ dfs_northbound g fuel cur vis path → ∃ r, t = path ++ cur :: r := by
  intro fuel
  induction fuel with
  | zero => intro cur vis path t ht; simp [dfs_northbound] at ht
  | succ fuel ih =>
    intro cur vis path t ht
    rw [dfs_northbound] at ht
    simp only [List.mem_append] at ht
    rcases ht with ht | ht
    · split at ht
      · rcases List.mem_singleton.mp ht with rfl
        exact ⟨[], rfl⟩
      · simp at ht
    · split at ht
      · rcases List.mem_flatMap.mp ht with ⟨nb, _, ht'⟩
        split at ht'
        · rcases ih nb (vis ++ [cur.team]) (path ++ [cur]) t ht' with ⟨r', hr'⟩
          refine ⟨nb :: r', ?_⟩
          rw [hr', List.append_assoc]
          rfl
        · simp at ht'
      · simp at ht

lemma count_eq_one_of_mem_nodup {α : Type} [BEq α] [LawfulBEq α]
    {l : List α} {a : α} (hn : l.Nodup) (ha : a ∈ l) : l.count a = 1 := by
  induction l with
  | nil => simp at ha
  | cons b l ih =>
    rcases List.nodup_cons.mp hn with ⟨hbl, hl⟩
    rcases List.mem_cons.mp ha with rfl | ha2
    · rw [List.count_cons]
      have hz : l.count a = 0 := List.count_eq_zero.mpr hbl
      simp [hz]
    · rw [List.count_cons]
      have hne : (a == b) = false := by
        have hx : a ≠ b := fun e => hbl (by rw [← e]; exact ha2)
        simpa using hx
      have hne2 : ¬ b = a := fun e => hbl (by rw [e]; exact ha2)
      simp [hne, hne2, ih hl ha2]

lemma dfs_southbound_nodup (g : GameGraph) (hn : g.nodes.Nodup) :
    ∀ (fuel : Nat) (cur : GameNode) (vis : List String) (path : List GameNode),
    (dfs_southbound g fuel cur vis path).Nodup := by
  intro fuel
  induction fuel with
  | zero => intro cur vis path; simp [dfs_southbound]
  | succ fuel ih =>
    intro cur vis path
    rw [dfs_southbound]
    apply List.Nodup.append
    · split
      · exact List.nodup_singleton _
      · exact List.nodup_nil
    · split
      · apply nodup_flatMap_of_disjoint
        · exact hn.filter _
        · intro a _
          split
          · exact ih a _ _
          · exact List.nodup_nil
        · intro a _ b _ hab x hxa hxb
          split at hxa
          · split at hxb
            · rcases dfs_southbound_shape g fuel a _ _ x hxa with ⟨r1, h1⟩
              rcases dfs_southbound_shape g fuel b _ _ x hxb with ⟨r2, h2⟩
              rw [h1] at h2
              have h3 := List.append_cancel_left h2
              simp only [List.cons.injEq] at h3
              exact hab h3.1
            · simp at hxb
          · simp at hxa
      · exact List.nodup_nil
    · intro x hx1 hx2
      split at hx1
      · rcases List.mem_singleton.mp hx1 with rfl
        split at hx2
        · rcases List.mem_flatMap.mp hx2 with ⟨nb, _, hxf⟩
          split at hxf
          · rcases dfs_southbound_shape g fuel nb _ _ _ hxf with ⟨r, hr⟩
            have hlen := congrArg List.length hr
            simp [List.length_append] at hlen
          · simp at hxf
        · simp at hx2
      · simp at hx1

lemma find_southbound_trips_nodup (g : GameGraph) (hn : g.nodes.Nodup)
    (w : GameNode) : (find_southbound_trips g w).Nodup := by
  unfold find_southbound_trips
  dsimp only
  apply nodup_flatMap_of_disjoint
  · exact hn.filter _
  · intro s _
    exact dfs_southbound_nodup g hn 5 s [] []
  · intro a _ b _ hab x hxa hxb
    rcases dfs_southbound_shape g 5 a [] [] x hxa with ⟨r1, h1⟩
    rcases dfs_southbound_shape g 5 b [] [] x hxb with ⟨r2, h2⟩
    rw [h1] at h2
    simp only [List.nil_append, List.cons.injEq] at h2
    exact hab h2.1

lemma mem_southbound_head {g : GameGraph} {w : GameNode} {t : Trip}
    (ht : t ∈ find_southbound_trips g w) :
    ∃ s r, t = s :: r ∧ s.team ≠ "Wizards" := by
  unfold find_southbound_trips at ht
  dsimp only at ht
  rcases List.mem_flatMap.mp ht with ⟨s, hs, ht'⟩
  have hsp := List.of_mem_filter hs
  rcases dfs_southbound_shape g 5 s [] [] t ht' with ⟨r, hr⟩
  exact ⟨s, r, by simpa using hr, by simpa using hsp⟩

lemma mem_northbound_head {g : GameGraph} {w : GameNode} {t : Trip}
    (ht : t ∈ find_northbound_trips g w) : ∃ r, t = w :: r := by
  unfold find_northbound_trips at ht
  rcases dfs_northbound_shape g 5 w [] [] t ht with ⟨r, hr⟩
  exact ⟨r, by simpa using hr⟩

/-- C10: the backward search's result is independent of the anchor node it is
invoked for (the parameter is unused), and consequently, over a built graph
with k Wizards nodes, every southbound trip occurs exactly k times in the
concatenated pre-deduplication output of `find_all_valid_trips`. -/
theorem C10_southbound_anchor_independent :
    (∀ (g : GameGraph) (a1 a2 : GameNode),
      find_southbound_trips g a1 = find_southbound_trips g a2) ∧
    (∀ (rows : List Row) (w : GameNode) (t : Trip),
      t ∈ find_southbound_trips (build_game_graph rows) w →
      (find_all_valid_trips (build_game_graph rows)).count t =
        ((build_game_graph rows).nodes.filter
          (fun n => n.team == "Wizards")).length) := by
  constructor
  · intro g a1 a2
    rfl
  · intro rows w t ht
    have hn := build_game_graph_nodes_nodup rows
    obtain ⟨s, r, rfl, hsteam⟩ := mem_southbound_head ht
    unfold find_all_valid_trips
    dsimp only
    have haux : ∀ ws : List GameNode, (∀ w' ∈ ws, w'.team = "Wizards") →
        (ws.flatMap (fun w' => find_northbound_trips (build_game_graph rows) w'
          ++ find_southbound_trips (build_game_graph rows) w')).count (s :: r) =
        ws.length := by
      intro ws
      induction ws with
      | nil => intro _; simp
      | cons w0 ws ih =>
        intro hws
        simp only [List.flatMap_cons, List.count_append]
        have hnb : (find_northbound_trips (build_game_graph rows) w0).count
            (s :: r) = 0 := by
          rw [List.count_eq_zero]
          intro hmem
          rcases mem_northbound_head hmem with ⟨r', hr'⟩
          have hhead : s = w0 := by
            injection hr' with h1 _
          rw [hhead] at hsteam
          exact hsteam (hws w0 (List.mem_cons_self _ _))
        have hsb : (find_southbound_trips (build_game_graph rows) w0).count
            (s :: r) = 1 := by
          have he : find_southbound_trips (build_game_graph rows) w0 =
              find_southbound_trips (build_game_graph rows) w := rfl
          rw [he]
          exact count_eq_one_of_mem_nodup
            (find_southbound_trips_nodup (build_game_graph rows) hn w) ht
        rw [hnb, hsb, ih (fun w' h => hws w' (List.mem_cons_of_mem _ h))]
        simp [List.length_cons]
        omega
    apply haux
    intro w' hw'
    have := List.of_mem_filter hw'
    simpa using this

/-- Southbound witness data: Celtics, Knicks, 76ers, Wizards on nights 0–3. -/
def rowC0x : Row := ⟨"Celtics", 0, "Nets", "TD Garden", some "Celtics"⟩

/-- Night-1 Knicks home game of the southbound witness input. -/
def rowK1x : Row := ⟨"Knicks", 1, "Celtics", "Madison Square Garden", some "NYC"⟩

/-- Night-2 76ers home game of the southbound witness input. -/
def rowS2x : Row := ⟨"76ers", 2, "Knicks", "Wells Fargo Center", some "76ers"⟩

/-- Night-3 Wizards home game of the southbound witness input. -/
def rowW3x : Row := ⟨"Wizards", 3, "76ers", "Capital One Arena", some "Wizards"⟩

/-- Witness for C10: the 4-night southbound trip occurs exactly once (k = 1). -/
theorem C10_witness :
    (find_all_valid_trips
      (build_game_graph [rowC0x, rowK1x, rowS2x, rowW3x])).count
        [rowToNode rowC0x, rowToNode rowK1x, rowToNode rowS2x, rowToNode rowW3x] =
    ((build_game_graph [rowC0x, rowK1x, rowS2x, rowW3x]).nodes.filter
      (fun n => n.team == "Wizards")).length :=
  C10_southbound_anchor_independent.2 [rowC0x, rowK1x, rowS2x, rowW3x]
    (rowToNode rowW3x)
    [rowToNode rowC0x, rowToNode rowK1x, rowToNode rowS2x, rowToNode rowW3x]
    (by decide)

/-! ### Out-of-domain records are absorbed (C9) -/

/-- The fixed 5-team domain (`target_teams` in `data_processor.py`). -/
def targetTeams : List String :=
  ["Wizards", "76ers", "Knicks", "Nets", "Celtics"]

lemma dictGet_NORTHBOUND_of_not_domain {k : String} (h : k ∉ targetTeams) :
    dictGet NORTHBOUND k = [] := by
  simp only [targetTeams, List.mem_cons, not_or] at h
  obtain ⟨h1, h2, h3, h4, h5, _⟩ := h
  have e1 : ("Wizards" == k) = false := beq_eq_false_iff_ne.mpr (fun e => h1 e.symm)
  have e2 : ("76ers" == k) = false := beq_eq_false_iff_ne.mpr (fun e => h2 e.symm)
  have e3 : ("Knicks" == k) = false := beq_eq_false_iff_ne.mpr (fun e => h3 e.symm)
  have e4 : ("Nets" == k) = false := beq_eq_false_iff_ne.mpr (fun e => h4 e.symm)
  simp [dictGet, NORTHBOUND, List.find?, e1, e2, e3, e4]

lemma dictGet_SOUTHBOUND_of_not_domain {k : String} (h : k ∉ targetTeams) :
    dictGet SOUTHBOUND k = [] := by
  simp only [targetTeams, List.mem_cons, not_or] at h
  obtain ⟨h1, h2, h3, h4, h5, _⟩ := h
  have e2 : ("76ers" == k) = false := beq_eq_false_iff_ne.mpr (fun e => h2 e.symm)
  have e3 : ("Knicks" == k) = false := beq_eq_false_iff_ne.mpr (fun e => h3 e.symm)
  have e4 : ("Nets" == k) = false := beq_eq_false_iff_ne.mpr (fun e => h4 e.symm)
  have e5 : ("Celtics" == k) = false := beq_eq_false_iff_ne.mpr (fun e => h5 e.symm)
  simp [dictGet, SOUTHBOUND, List.find?, e2, e3, e4, e5]

lemma dictGet_NORTHBOUND_values {k t : String} (h : t ∈ dictGet NORTHBOUND k) :
    t ∈ targetTeams := by
  unfold dictGet at h
  split at h
  · rename_i p hp
    have hpm := List.mem_of_find?_eq_some hp
    simp only [NORTHBOUND, List.mem_cons, List.mem_singleton] at hpm
    rcases hpm with rfl | rfl | rfl | rfl | hfalse
    · simp only at h
      fin_cases h <;> simp [targetTeams]
    · simp only at h
      fin_cases h <;> simp [targetTeams]
    · simp only at h
      fin_cases h <;> simp [targetTeams]
    · simp only at h
      fin_cases h <;> simp [targetTeams]
    · simp at hfalse
  · simp at h

lemma dictGet_SOUTHBOUND_values {k t : String} (h : t ∈ dictGet SOUTHBOUND k) :
    t ∈ targetTeams := by
  unfold dictGet at h
  split at h
  · rename_i p hp
    have hpm := List.mem_of_find?_eq_some hp
    simp only [SOUTHBOUND, List.mem_cons, List.mem_singleton] at hpm
    rcases hpm with rfl | rfl | rfl | rfl | hfalse
    · simp only at h
      fin_cases h <;> simp [targetTeams]
    · simp only at h
      fin_cases h <;> simp [targetTeams]
    · simp only at h
      fin_cases h <;> simp [targetTeams]
    · simp only at h
      fin_cases h <;> simp [targetTeams]
    · simp at hfalse
  · simp at h

lemma valid_from_out {a b : GameNode} (hdom : a.team ∉ targetTeams)
    (hnyc : a.city_group ≠ some "NYC") (d : String) :
    is_valid_geographic_transition a b d = false := by
  have hcg : (a.city_group == some "NYC") = false :=
    beq_eq_false_iff_ne.mpr hnyc
  unfold is_valid_geographic_transition
  dsimp only
  split
  · rw [dictGet_NORTHBOUND_of_not_domain hdom]
    simp [hcg]
  · split
    · rw [dictGet_SOUTHBOUND_of_not_domain hdom]
      simp [hcg]
    · rfl

lemma valid_to_out {a b : GameNode} (hdom : b.team ∉ targetTeams)
    (hnyc : b.city_group ≠ some "NYC") (d : String) :
    is_valid_geographic_transition a b d = false := by
  have hcg : (b.city_group == some "NYC") = false :=
    beq_eq_false_iff_ne.mpr hnyc
  have hnb : (dictGet NORTHBOUND a.team).contains b.team = false :=
    Bool.eq_false_iff.mpr
      (fun h => hdom (dictGet_NORTHBOUND_values (by simpa using h)))
  have hsb : (dictGet SOUTHBOUND a.team).contains b.team = false :=
    Bool.eq_false_iff.mpr
      (fun h => hdom (dictGet_SOUTHBOUND_values (by simpa using h)))
  unfold is_valid_geographic_transition
  dsimp only
  split
  · simp only [hcg]
    simp
    simpa using hnb
  · split
    · simp only [hcg]
      simp
      simpa using hsb
    · rfl

/-- One iteration of the inner pair loop of `add_edges_to_graph`. -/
def edge_pair_step (g : GameGraph) (from_node to_node : GameNode) : GameGraph :=
  if nodeEq from_node to_node then g
  else if !is_consecutive_night from_node.date to_node.date then g
  else if from_node.team == to_node.team then g
  else
    let g :=
      if is_valid_geographic_transition from_node to_node "northbound" then
        addEdge g from_node to_node "northbound"
      else g
    if is_valid_geographic_transition from_node to_node "southbound" then
      addEdge g from_node to_node "southbound"
    else g

lemma add_edges_to_graph_eq (g : GameGraph) (ns : List GameNode) :
    add_edges_to_graph g ns =
      ns.foldl (fun g fn => ns.foldl (fun g tn => edge_pair_step g fn tn) g) g :=
  rfl

/-- Key-level node membership, as `DiGraph.add_node` tests it. -/
def anyKey (N : List GameNode) (n : GameNode) : Bool :=
  N.any (fun m => nodeEq m n)

lemma addNode_of_anyKey {g : GameGraph} {n : GameNode}
    (h : anyKey g.nodes n = true) : addNode g n = g := by
  unfold addNode
  unfold anyKey at h
  simp [h]

lemma anyKey_append_left {N M : List GameNode} {n : GameNode}
    (h : anyKey N n = true) : anyKey (N ++ M) n = true := by
  unfold anyKey at h ⊢
  rw [List.any_append, h]
  rfl

lemma addEdge_of_anyKey {g : GameGraph} {u v : GameNode} (d : String)
    (hu : anyKey g.nodes u = true) (hv : anyKey g.nodes v = true) :
    addEdge g u v d =
      { nodes := g.nodes,
        edges :=
          if g.edges.any (fun e => nodeEq e.1.1 u && nodeEq e.1.2 v) then
            updateEdge g.edges u v d
          else g.edges ++ [((u, v), d)] } := by
  unfold addEdge
  rw [addNode_of_anyKey hu, addNode_of_anyKey hv]
  dsimp only
  split <;> rfl

/-- Simulation relation: `g'` is `g` with one extra trailing node `L` and the
same edge set. -/
def SimLG (N0 : List GameNode) (L : GameNode) (g g' : GameGraph) : Prop :=
  g.nodes = N0 ∧ g'.nodes = N0 ++ [L] ∧ g'.edges = g.edges

lemma addEdge_simLG {N0 : List GameNode} {L : GameNode} {g g' : GameGraph}
    (h : SimLG N0 L g g') {u v : GameNode} (d : String)
    (hu : anyKey N0 u = true) (hv : anyKey N0 v = true) :
    SimLG N0 L (addEdge g u v d) (addEdge g' u v d) := by
  obtain ⟨h1, h2, h3⟩ := h
  have hu1 : anyKey g.nodes u = true := by rw [h1]; exact hu
  have hv1 : anyKey g.nodes v = true := by rw [h1]; exact hv
  have hu2 : anyKey g'.nodes u = true := by rw [h2]; exact anyKey_append_left hu
  have hv2 : anyKey g'.nodes v = true := by rw [h2]; exact anyKey_append_left hv
  rw [addEdge_of_anyKey d hu1 hv1, addEdge_of_anyKey d hu2 hv2]
  refine ⟨h1, h2, ?_⟩
  simp only [h3]

lemma edge_pair_step_simLG {N0 : List GameNode} {L : GameNode} {g g' : GameGraph}
    (h : SimLG N0 L g g') {fn tn : GameNode}
    (hfn : anyKey N0 fn = true) (htn : anyKey N0 tn = true) :
    SimLG N0 L (edge_pair_step g fn tn) (edge_pair_step g' fn tn) := by
  unfold edge_pair_step
  by_cases h1 : nodeEq fn tn = true
  · simp only [h1, if_true]
    exact h
  · simp only [Bool.not_eq_true] at h1
    simp only [h1, Bool.false_eq_true, if_false]
    by_cases h2 : (!is_consecutive_night fn.date tn.date) = true
    · simp only [h2, if_true]
      exact h
    · simp only [Bool.not_eq_true] at h2
      simp only [h2, Bool.false_eq_true, if_false]
      by_cases h3 : (fn.team == tn.team) = true
      · simp only [h3, if_true]
        exact h
      · simp only [Bool.not_eq_true] at h3
        simp only [h3, Bool.false_eq_true, if_false]
        by_cases h4 : is_valid_geographic_transition fn tn "northbound" = true
        · simp only [h4, if_true]
          by_cases h5 : is_valid_geographic_transition fn tn "southbound" = true
          · simp only [h5, if_true]
            exact addEdge_simLG (addEdge_simLG h _ hfn htn) _ hfn htn
          · simp only [Bool.not_eq_true] at h5
            simp only [h5, Bool.false_eq_true, if_false]
            exact addEdge_simLG h _ hfn htn
        · simp only [Bool.not_eq_true] at h4
          simp only [h4, Bool.false_eq_true, if_false]
          by_cases h5 : is_valid_geographic_transition fn tn "southbound" = true
          · simp only [h5, if_true]
            exact addEdge_simLG h _ hfn htn
          · simp only [Bool.not_eq_true] at h5
            simp only [h5, Bool.false_eq_true, if_false]
            exact h

lemma edge_pair_step_from_L {L : GameNode} (hLdom : L.team ∉ targetTeams)
    (hLnyc : L.city_group ≠ some "NYC") (g : GameGraph) (tn : GameNode) :
    edge_pair_step g L tn = g := by
  unfold edge_pair_step
  have hN := valid_from_out (b := tn) hLdom hLnyc "northbound"
  have hS := valid_from_out (b := tn) hLdom hLnyc "southbound"
  simp only [hN, hS, Bool.false_eq_true, if_false]
  repeat' split
  all_goals rfl

lemma edge_pair_step_to_L {L : GameNode} (hLdom : L.team ∉ targetTeams)
    (hLnyc : L.city_group ≠ some "NYC") (g : GameGraph) (fn : GameNode) :
    edge_pair_step g fn L = g := by
  unfold edge_pair_step
  have hN := valid_to_out (a := fn) hLdom hLnyc "northbound"
  have hS := valid_to_out (a := fn) hLdom hLnyc "southbound"
  simp only [hN, hS, Bool.false_eq_true, if_false]
  repeat' split
  all_goals rfl

lemma foldl_id {α β : Type} (f : β → α → β) (h : ∀ b a, f b a = b) :
    ∀ (l : List α) (b : β), l.foldl f b = b := by
  intro l
  induction l with
  | nil => intro b; rfl
  | cons a l ih => intro b; rw [List.foldl_cons, h b a, ih]

lemma foldl_preserves_mem {α β : Type} (P : β → Prop) (f : β → α → β) :
    ∀ (l : List α), (∀ b a, a ∈ l → P b → P (f b a)) →
    ∀ b, P b → P (l.foldl f b) := by
  intro l
  induction l with
  | nil => intro _ b hb; exact hb
  | cons a l ih =>
    intro hf b hb
    rw [List.foldl_cons]
    exact ih (fun b' a' ha' hb' => hf b' a' (List.mem_cons_of_mem _ ha') hb')
      (f b a) (hf b a (List.mem_cons_self _ _) hb)

lemma inner_fold_simLG {N0 : List GameNode} {L : GameNode} {fn : GameNode}
    (hfn : anyKey N0 fn = true) :
    ∀ (l : List GameNode) {g g' : GameGraph}, SimLG N0 L g g' →
    (∀ n ∈ l, anyKey N0 n = true) →
    SimLG N0 L (l.foldl (fun g tn => edge_pair_step g fn tn) g)
      (l.foldl (fun g tn => edge_pair_step g fn tn) g') := by
  intro l
  induction l with
  | nil => intro g g' h _; exact h
  | cons tn l ih =>
    intro g g' h hl
    simp only [List.foldl_cons]
    exact ih (edge_pair_step_simLG h hfn (hl tn (List.mem_cons_self _ _)))
      (fun n hn => hl n (List.mem_cons_of_mem _ hn))

lemma outer_fold_simLG {N0 : List GameNode} {L : GameNode} {ns : List GameNode}
    (hLdom : L.team ∉ targetTeams) (hLnyc : L.city_group ≠ some "NYC")
    (hns : ∀ n ∈ ns, anyKey N0 n = true) :
    ∀ (l : List GameNode), (∀ n ∈ l, anyKey N0 n = true) →
    ∀ {g g' : GameGraph}, SimLG N0 L g g' →
    SimLG N0 L
      (l.foldl (fun g fn => ns.foldl (fun g tn => edge_pair_step g fn tn) g) g)
      (l.foldl (fun g fn =>
        (ns ++ [L]).foldl (fun g tn => edge_pair_step g fn tn) g) g') := by
  intro l
  induction l with
  | nil => intro _ g g' h; exact h
  | cons fn l ih =>
    intro hl g g' h
    simp only [List.foldl_cons]
    have hfn := hl fn (List.mem_cons_self _ _)
    have hinner := inner_fold_simLG hfn ns h hns
    have happ : (ns ++ [L]).foldl (fun g tn => edge_pair_step g fn tn) g' =
        ns.foldl (fun g tn => edge_pair_step g fn tn) g' := by
      rw [List.foldl_append]
      simp only [List.foldl_cons, List.foldl_nil]
      rw [edge_pair_step_to_L hLdom hLnyc]
    rw [happ]
    exact ih (fun n hn => hl n (List.mem_cons_of_mem _ hn)) hinner

lemma foldl_addNode_anyKey_mono {n : GameNode} :
    ∀ (l : List GameNode) (G : GameGraph),
    anyKey G.nodes n = true → anyKey (l.foldl addNode G).nodes n = true := by
  intro l
  induction l with
  | nil => intro G h; exact h
  | cons m l ih =>
    intro G h
    rw [List.foldl_cons]
    apply ih
    unfold addNode
    split
    · exact h
    · exact anyKey_append_left h

lemma foldl_addNode_anyKey :
    ∀ (l : List GameNode) (G : GameGraph) (n : GameNode), n ∈ l →
    anyKey (l.foldl addNode G).nodes n = true := by
  intro l
  induction l with
  | nil => intro G n h; simp at h
  | cons m l ih =>
    intro G n h
    rcases List.mem_cons.mp h with rfl | h'
    · rw [List.foldl_cons]
      apply foldl_addNode_anyKey_mono
      unfold addNode
      split
      · rename_i hany
        exact hany
      · unfold anyKey
        rw [List.any_append]
        simp [List.any_cons, nodeEq_refl]
    · rw [List.foldl_cons]
      exact ih (addNode G m) n h'

lemma foldl_addNode_nodes_subset :
    ∀ (l : List GameNode) (G : GameGraph) (m : GameNode),
    m ∈ (l.foldl addNode G).nodes → m ∈ G.nodes ∨ m ∈ l := by
  intro l
  induction l with
  | nil => intro G m h; exact Or.inl h
  | cons n l ih =>
    intro G m h
    rw [List.foldl_cons] at h
    rcases ih (addNode G n) m h with hG | hl
    · unfold addNode at hG
      split at hG
      · exact Or.inl hG
      · rcases List.mem_append.mp hG with hG' | hn
        · exact Or.inl hG'
        · exact Or.inr (List.mem_cons.mpr (Or.inl (List.mem_singleton.mp hn)))
    · exact Or.inr (List.mem_cons_of_mem _ hl)

lemma addNode_of_not_anyKey {g : GameGraph} {n : GameNode}
    (h : (g.nodes.any fun m => nodeEq m n) = false) :
    addNode g n = { nodes := g.nodes ++ [n], edges := g.edges } := by
  unfold addNode
  simp only [h, Bool.false_eq_true, if_false]

lemma build_simLG (rows : List Row) (row : Row)
    (hdom : row.home ∉ targetTeams) (hnyc : row.cityGroup ≠ some "NYC")
    (hfresh : ∀ r ∈ rows, nodeEq (rowToNode r) (rowToNode row) = false) :
    SimLG ((rows.map rowToNode).foldl addNode newDiGraph).nodes (rowToNode row)
      (build_game_graph rows) (build_game_graph (rows ++ [row])) := by
  have hLdom : (rowToNode row).team ∉ targetTeams := hdom
  have hLnyc : (rowToNode row).city_group ≠ some "NYC" := hnyc
  have hns : ∀ n ∈ rows.map rowToNode,
      anyKey ((rows.map rowToNode).foldl addNode newDiGraph).nodes n = true :=
    fun n hn => foldl_addNode_anyKey _ _ n hn
  have hndsL : ((rows.map rowToNode).foldl addNode newDiGraph).nodes.any
      (fun m => nodeEq m (rowToNode row)) = false := by
    rcases Bool.eq_false_or_eq_true (((rows.map rowToNode).foldl addNode
        newDiGraph).nodes.any (fun m => nodeEq m (rowToNode row))) with h | h
    · rcases List.any_eq_true.mp h with ⟨m, hm, hmeq⟩
      rcases foldl_addNode_nodes_subset _ newDiGraph m hm with h0 | hmem
      · simp [newDiGraph] at h0
      · rcases List.mem_map.mp hmem with ⟨r, hr, rfl⟩
        rw [hfresh r hr] at hmeq
        simp at hmeq
    · exact h
  have hmap : (rows ++ [row]).map rowToNode =
      rows.map rowToNode ++ [rowToNode row] := by simp
  unfold build_game_graph
  dsimp only
  rw [hmap, add_edges_to_graph_eq, add_edges_to_graph_eq]
  have hG0' : ((rows.map rowToNode ++ [rowToNode row]).foldl addNode newDiGraph) =
      { nodes := ((rows.map rowToNode).foldl addNode newDiGraph).nodes
          ++ [rowToNode row],
        edges := ((rows.map rowToNode).foldl addNode newDiGraph).edges } := by
    rw [List.foldl_append]
    simp only [List.foldl_cons, List.foldl_nil]
    exact addNode_of_not_anyKey hndsL
  rw [hG0']
  have houter : ∀ (g' : GameGraph),
      (rows.map rowToNode ++ [rowToNode row]).foldl
        (fun g fn => (rows.map rowToNode ++ [rowToNode row]).foldl
          (fun g tn => edge_pair_step g fn tn) g) g' =
      (rows.map rowToNode).foldl
        (fun g fn => (rows.map rowToNode ++ [rowToNode row]).foldl
          (fun g tn => edge_pair_step g fn tn) g) g' := by
    intro g'
    conv_lhs => rw [List.foldl_append]
    simp only [List.foldl_cons, List.foldl_nil]
    rw [foldl_id (fun g tn => edge_pair_step g (rowToNode row) tn)
      (fun b a => edge_pair_step_from_L hLdom hLnyc b a)]
  rw [houter]
  exact outer_fold_simLG hLdom hLnyc hns (rows.map rowToNode) hns ⟨rfl, rfl, rfl⟩

/-- Edge endpoints of a built graph are key-equal to input nodes. -/
def edgesKeyed (ns : List GameNode) (g : GameGraph) : Prop :=
  ∀ e ∈ g.edges, (∃ a ∈ ns, nodeEq e.1.1 a = true) ∧
    (∃ b ∈ ns, nodeEq e.1.2 b = true)

lemma addEdge_edgesKeyed {ns : List GameNode} {g : GameGraph} {u v : GameNode}
    (d : String) (hu : u ∈ ns) (hv : v ∈ ns) (hg : edgesKeyed ns g) :
    edgesKeyed ns (addEdge g u v d) := by
  intro e he
  unfold addEdge at he
  simp only [addNode_edges] at he
  split at he
  · simp only at he
    rcases mem_updateEdge e he with ⟨e', he', heq⟩
    rw [heq]
    exact hg e' he'
  · simp only at he
    rcases List.mem_append.mp he with hmem | hmem
    · exact hg e hmem
    · rcases List.mem_singleton.mp hmem with rfl
      exact ⟨⟨u, hu, nodeEq_refl u⟩, ⟨v, hv, nodeEq_refl v⟩⟩

lemma edge_pair_step_edgesKeyed {ns : List GameNode} {g : GameGraph}
    {fn tn : GameNode} (hfn : fn ∈ ns) (htn : tn ∈ ns)
    (hg : edgesKeyed ns g) : edgesKeyed ns (edge_pair_step g fn tn) := by
  unfold edge_pair_step
  split
  · exact hg
  · split
    · exact hg
    · split
      · exact hg
      · split
        · split
          · exact addEdge_edgesKeyed _ hfn htn (addEdge_edgesKeyed _ hfn htn hg)
          · exact addEdge_edgesKeyed _ hfn htn hg
        · split
          · exact addEdge_edgesKeyed _ hfn htn hg
          · exact hg

lemma build_edgesKeyed (rows : List Row) :
    edgesKeyed (rows.map rowToNode) (build_game_graph rows) := by
  unfold build_game_graph
  dsimp only
  rw [add_edges_to_graph_eq]
  apply foldl_preserves_mem (edgesKeyed (rows.map rowToNode)) _
    (rows.map rowToNode)
  · intro g fn hfn hg
    apply foldl_preserves_mem (edgesKeyed (rows.map rowToNode)) _
      (rows.map rowToNode)
    · intro g' tn htn hg'
      exact edge_pair_step_edgesKeyed hfn htn hg'
    · exact hg
  · intro e he
    rw [foldl_addNode_edges] at he
    simp [newDiGraph] at he

lemma nodeEq_false_trans {x a L : GameNode} (h1 : nodeEq x a = true)
    (h2 : nodeEq a L = false) : nodeEq x L = false := by
  rw [Bool.eq_false_iff] at h2 ⊢
  intro h
  exact h2 (nodeEq_iff.mpr
    (((nodeEq_iff.mp h1).symm).trans (nodeEq_iff.mp h)))

lemma flatMap_congr_mem {α β : Type} {l : List α} {f f' : α → List β}
    (h : ∀ x ∈ l, f x = f' x) : l.flatMap f = l.flatMap f' := by
  induction l with
  | nil => rfl
  | cons a l ih =>
    simp only [List.flatMap_cons]
    rw [h a (List.mem_cons_self _ _),
      ih (fun x hx => h x (List.mem_cons_of_mem _ hx))]

lemma edgeDir_none_to_L {g' : GameGraph} {L : GameNode}
    (h : ∀ e ∈ g'.edges, nodeEq e.1.2 L = false) (u : GameNode) :
    edgeDir g' u L = none := by
  have hfind : g'.edges.find? (fun e => nodeEq e.1.1 u && nodeEq e.1.2 L)
      = none := by
    rw [List.find?_eq_none]
    intro e he
    simp [h e he]
  unfold edgeDir
  rw [hfind]

lemma edgeDir_none_from_L {g' : GameGraph} {L : GameNode}
    (h : ∀ e ∈ g'.edges, nodeEq e.1.1 L = false) (v : GameNode) :
    edgeDir g' L v = none := by
  have hfind : g'.edges.find? (fun e => nodeEq e.1.1 L && nodeEq e.1.2 v)
      = none := by
    rw [List.find?_eq_none]
    intro e he
    simp [h e he]
  unfold edgeDir
  rw [hfind]

lemma search_eq (g g' : GameGraph) (L : GameNode)
    (hn : g'.nodes = g.nodes ++ [L]) (he : g'.edges = g.edges)
    (hL1 : ∀ e ∈ g.edges, nodeEq e.1.1 L = false)
    (hL2 : ∀ e ∈ g.edges, nodeEq e.1.2 L = false)
    (hLteam : L.team ≠ "Wizards") :
    find_all_valid_trips g' = find_all_valid_trips g := by
  have hedir : ∀ u v, edgeDir g' u v = edgeDir g u v := by
    intro u v
    unfold edgeDir
    rw [he]
  have hL1' : ∀ e ∈ g'.edges, nodeEq e.1.1 L = false := by
    rw [he]; exact hL1
  have hL2' : ∀ e ∈ g'.edges, nodeEq e.1.2 L = false := by
    rw [he]; exact hL2
  have htoL : ∀ u, edgeDir g' u L = none := edgeDir_none_to_L hL2'
  have hfromL : ∀ v, edgeDir g' L v = none := edgeDir_none_from_L hL1'
  have hsucc : ∀ u, successors g' u = successors g u := by
    intro u
    unfold successors
    rw [hn, List.filter_append]
    have h2 : [L].filter (fun v => (edgeDir g' u v).isSome) = [] := by
      simp [htoL u]
    rw [h2, List.append_nil]
    exact List.filter_congr (fun v _ => by rw [hedir])
  have hsuccL : successors g' L = [] := by
    unfold successors
    apply List.filter_eq_nil_iff.mpr
    intro v _
    simp [hfromL v]
  have hdfsS : ∀ fuel cur vis path, dfs_southbound g' fuel cur vis path =
      dfs_southbound g fuel cur vis path := by
    intro fuel
    induction fuel with
    | zero => intro cur vis path; rfl
    | succ fuel ih =>
      intro cur vis path
      rw [dfs_southbound, dfs_southbound]
      simp only [hsucc, hedir, ih]
  have hdfsN : ∀ fuel cur vis path, dfs_northbound g' fuel cur vis path =
      dfs_northbound g fuel cur vis path := by
    intro fuel
    induction fuel with
    | zero => intro cur vis path; rfl
    | succ fuel ih =>
      intro cur vis path
      rw [dfs_northbound, dfs_northbound]
      simp only [hsucc, hedir, ih]
  have hteamb : (L.team == "Wizards") = false := beq_eq_false_iff_ne.mpr hLteam
  have hdfsLempty : dfs_southbound g' 5 L [] [] = [] := by
    rw [dfs_southbound]
    simp [hsuccL, hteamb]
  unfold find_all_valid_trips
  dsimp only
  have hwiz : g'.nodes.filter (fun n => n.team == "Wizards") =
      g.nodes.filter (fun n => n.team == "Wizards") := by
    rw [hn, List.filter_append]
    have hLf : [L].filter (fun n => n.team == "Wizards") = [] := by
      simp [hteamb]
    rw [hLf, List.append_nil]
  rw [hwiz]
  apply flatMap_congr_mem
  intro w _
  have hNB : find_northbound_trips g' w = find_northbound_trips g w := by
    unfold find_northbound_trips
    exact hdfsN 5 w [] []
  have hSB : find_southbound_trips g' w = find_southbound_trips g w := by
    unfold find_southbound_trips
    dsimp only
    rw [hn, List.filter_append]
    have hLf : [L].filter (fun n => n.team != "Wizards") = [L] := by
      have hx : (L.team != "Wizards") = true := by simpa using hLteam
      simp [hx]
    rw [hLf, List.flatMap_append]
    have h1 : [L].flatMap (fun s => dfs_southbound g' 5 s [] []) = [] := by
      simp [hdfsLempty]
    rw [h1, List.append_nil]
    exact flatMap_congr_mem (fun s _ => hdfsS 5 s [] [])
  rw [hNB, hSB]

/-- C9 (amended): a record whose team is outside the fixed 5-team domain (and
not tagged NYC) is silently absorbed: appending it to any input leaves the
whole core pipeline's output unchanged, and no error is signaled. -/
theorem C9_amended_out_of_domain_absorbed (rows : List Row) (row : Row)
    (hdom : row.home ∉ targetTeams) (hnyc : row.cityGroup ≠ some "NYC")
    (hfresh : ∀ r ∈ rows, nodeEq (rowToNode r) (rowToNode row) = false) :
    run_core (rows ++ [row]) = run_core rows := by
  obtain ⟨h1, h2, h3⟩ := build_simLG rows row hdom hnyc hfresh
  have hn : (build_game_graph (rows ++ [row])).nodes =
      (build_game_graph rows).nodes ++ [rowToNode row] := by
    rw [h2, h1]
  have hkeyed := build_edgesKeyed rows
  have hL1 : ∀ e ∈ (build_game_graph rows).edges,
      nodeEq e.1.1 (rowToNode row) = false := by
    intro e he
    obtain ⟨⟨a, ha, hea⟩, _⟩ := hkeyed e he
    rcases List.mem_map.mp ha with ⟨r, hr, rfl⟩
    exact nodeEq_false_trans hea (hfresh r hr)
  have hL2 : ∀ e ∈ (build_game_graph rows).edges,
      nodeEq e.1.2 (rowToNode row) = false := by
    intro e he
    obtain ⟨_, ⟨b, hb, heb⟩⟩ := hkeyed e he
    rcases List.mem_map.mp hb with ⟨r, hr, rfl⟩
    exact nodeEq_false_trans heb (hfresh r hr)
  have hLteam : (rowToNode row).team ≠ "Wizards" := by
    intro heq
    apply hdom
    have hx : row.home = "Wizards" := heq
    rw [hx]
    simp [targetTeams]
  unfold run_core
  rw [search_eq (build_game_graph rows) (build_game_graph (rows ++ [row]))
    (rowToNode row) hn h3 hL1 hL2 hLteam]

/-- Witness for C9's amended theorem: appending the Lakers record to a
two-game input leaves the ranked output unchanged. -/
theorem C9_witness :
    run_core ([rowW0, rowS1] ++ [rowLakers]) = run_core [rowW0, rowS1] :=
  C9_amended_out_of_domain_absorbed [rowW0, rowS1] rowLakers
    (by decide) (by decide) (by decide)
